import Mathlib

/-!
Verification of the IPL ingestion pipeline (`src/loader.py`).

The development shallowly embeds the ingestion core of `loader.py`:
the scalar coercion helpers (`safe_int`), the player identity resolver
(`get_or_create_player`), and the per-file normalizer/persister
(`process_json_file`).  The MySQL tables are modelled as pure maps and
lists inside a `DB` record; each SQL statement of the source becomes an
explicit update of that record.  Machine floats are modelled as `ℚ`.
Storage failures (statements that would raise in Python) are modelled
by explicit Boolean oracles: one Boolean per fallible block, and a
`Nat → Bool` oracle indexed by attempt count for per-row inserts.
Python's builtin `float(...)` string parser is not part of the
repository; it is modelled as an abstract parameter `pf`, and likewise
`datetime.strptime` as an abstract parameter `strp`.
-/

namespace IPL

/-- Python truthiness of an optional integer (`if player_id:` in the source;
MySQL auto-increment ids start at 1, but id 0 would be falsy). -/
def truthyNat : Option Nat → Bool
  | Option.none => false
  | Option.some n => n != 0

/-- Python truthiness of an optional string (`if pname:` in the source). -/
def truthyStr : Option String → Bool
  | Option.none => false
  | Option.some s => s != ""

/-- Python `int(...)` applied to a float: truncation toward zero. -/
def pytrunc (q : ℚ) : Int := if 0 ≤ q then ⌊q⌋ else ⌈q⌉

/-- Python's `str.strip()`: drop leading and trailing whitespace.
(Defined structurally over the character list so that it evaluates by
kernel reduction; `String.trim` is extensionally the same but is defined
by well-founded recursion.) -/
def pystrip (s : String) : String :=
  (((s.toList.dropWhile Char.isWhitespace).reverse.dropWhile
      Char.isWhitespace).reverse).asString

/-- A loosely-typed scalar, as handed to `safe_int` by the JSON layer.
`pyobj` stands for any value `float()` cannot convert (raises). -/
inductive PyVal where
  | pynone
  | pyint (n : Int)
  | pyfloat (q : ℚ)
  | pystr (s : String)
  | pyobj
deriving DecidableEq

/-- `safe_int` from `loader.py` (the spec's `coerceInt`).  `pf` models
Python's builtin `float` on strings (`none` = the builtin raises); the
source's bare `except: return default` is the `none` branches here, so
the function is total by construction.  Mirrors:
`if val is None or val == '': return default`, then for strings
`val = val.strip(); if not val: return default`, then
`return int(float(val))` with any exception yielding `default`. -/
def safe_int (pf : String → Option ℚ) : PyVal → Option Int → Option Int
  | PyVal.pynone, d => d
  | PyVal.pystr s, d =>
      if s = "" then d
      else
        let t := pystrip s
        if t = "" then d
        else
          match pf t with
          | some q => some (pytrunc q)
          | none => d
  | PyVal.pyint n, _ => some n
  | PyVal.pyfloat q, _ => some (pytrunc q)
  | PyVal.pyobj, d => d

/-- The `outcome.by` object of a match record. -/
structure OutcomeBy where
  runs : Option Int
  wickets : Option Int
deriving DecidableEq

/-- The `outcome` object of a match record. -/
structure Outcome where
  winner : Option String
  outcome_by : Option OutcomeBy
deriving DecidableEq

/-- Margin rendering from `process_json_file` (loader.py lines 400-406):
`if 'by' in outcome: if 'runs' in by_info: margin = f"...runs"
elif 'wickets' in by_info: margin = f"...wickets"`. -/
def renderMargin (o : Outcome) : Option String :=
  match o.outcome_by with
  | none => none
  | some b =>
    match b.runs with
    | some n => some (toString n ++ " runs")
    | none =>
      match b.wickets with
      | some n => some (toString n ++ " wickets")
      | none => none

/-- A row of the `players` table (the modelled columns). -/
structure PlayerRow where
  pid : Nat
  registry_id : Option String
deriving DecidableEq

/-- The `players` table: rows keyed by the unique `player_name`, plus the
auto-increment counter. -/
structure PlayersState where
  table : String → Option PlayerRow
  nextId : Nat

/-- `clean_name = clean_name[:500]` after `len(clean_name) > 500`. -/
def truncate500 (s : String) : String :=
  if s.length > 500 then (s.toList.take 500).asString else s

/-- `COALESCE(VALUES(registry_id), registry_id)`: the freshly supplied
value when non-null, otherwise the stored one. -/
def mergeRegistry (newReg old : Option String) : Option String :=
  match newReg with
  | some v => some v
  | none => old

/-- The key under which `get_or_create_player` stores a name:
`if not player_name or not player_name.strip(): return None` yields
`none`; otherwise the stripped name truncated to 500 characters. -/
def keyOf : Option String → Option String
  | none => none
  | some nm => if pystrip nm = "" then none else some (truncate500 (pystrip nm))

/-- `get_or_create_player` from `loader.py` (the spec's `resolve`).
`insOk` models whether the `INSERT ... ON DUPLICATE KEY UPDATE` raises;
on failure, `lookOk` models whether the fallback
`SELECT player_id FROM players WHERE player_name=%s` raises.
The `ON DUPLICATE KEY UPDATE player_id=LAST_INSERT_ID(player_id),
registry_id=COALESCE(VALUES(registry_id), registry_id)` upsert is the
`insOk = true` branch: an existing row keeps its id and merges the
registry id; a fresh row takes the auto-increment id. -/
def get_or_create_player (insOk lookOk : Bool) (st : PlayersState)
    (player_name : Option String) (registry_id : Option String) :
    Option Nat × PlayersState :=
  match keyOf player_name with
  | none => (none, st)
  | some clean_name =>
    if insOk then
      match st.table clean_name with
      | some r =>
        (some r.pid,
          { st with table := fun k => if k = clean_name
              then some { r with registry_id := mergeRegistry registry_id r.registry_id }
              else st.table k })
      | none =>
        (some st.nextId,
          { table := fun k => if k = clean_name
              then some { pid := st.nextId, registry_id := registry_id }
              else st.table k,
            nextId := st.nextId + 1 })
    else if lookOk then
      match st.table clean_name with
      | some r => (some r.pid, st)
      | none => (none, st)
    else (none, st)

/-- The id stored for key `k` (presence and identity of a player row). -/
def pidAt (st : PlayersState) (k : String) : Option Nat := (st.table k).map (·.pid)

/-- The id a name resolves to against a player table, ignoring storage
effects: the pure read-back of `get_or_create_player`'s key handling. -/
def resolveName (st : PlayersState) (n : Option String) : Option Nat :=
  (keyOf n).bind (fun k => pidAt st k)

/-- `overs_played = complete_overs + (remaining_balls / 10.0) if
remaining_balls > 0 else complete_overs`, with Python's floor division
and sign-of-divisor modulus (`Int.fdiv`/`Int.fmod`). -/
def overs_played (balls bpo : Int) : ℚ :=
  if 0 < balls.fmod bpo then
    ((balls.fdiv bpo : Int) : ℚ) + ((balls.fmod bpo : Int) : ℚ) / 10
  else ((balls.fdiv bpo : Int) : ℚ)

/-! ## The parsed match record

The JSON record is modelled in typed form, following the record shape of
the source's reads (spec §6).  `Option` marks fields the source reads
with `.get` and a `None`-able result; scalar fields the source passes
through `safe_int` are typed as the coerced integer (a field that is
present but unparsable is not representable and is out of scope of the
claims).  Dates are abstract (`strp` parameter). -/

structure FielderInfo where
  name : Option String
deriving DecidableEq

structure WicketInfo where
  kind : Option String
  player_out : Option String
  fielders : List FielderInfo
deriving DecidableEq

structure RunsInfo where
  batter : Option Int
  extras : Option Int
  total : Option Int
deriving DecidableEq

structure ExtrasInfo where
  wides : Option Int
  noballs : Option Int
  byes : Option Int
  legbyes : Option Int
  penalty : Option Int
deriving DecidableEq

structure DeliveryData where
  batter : Option String
  non_striker : Option String
  bowler : Option String
  runs : RunsInfo
  extras : ExtrasInfo
  wickets : List WicketInfo
deriving DecidableEq

structure OverData where
  over : Int
  deliveries : List DeliveryData
deriving DecidableEq

structure InningsData where
  team : Option String
  overs : List OverData
deriving DecidableEq

structure OfficialsData where
  umpires : List String
  tv_umpires : List String
  reserve_umpires : List String
  match_referees : List String
deriving DecidableEq

structure EventInfo where
  name : Option String
  match_number : Option Int
deriving DecidableEq

structure TossInfo where
  winner : Option String
  decision : Option String
deriving DecidableEq

structure MatchInfo where
  dates : List String
  venue : Option String
  city : Option String
  gender : Option String
  match_type : Option String
  team_type : Option String
  overs : Option Int
  balls_per_over : Option Int
  teams : List String
  event : EventInfo
  season : Option Int
  toss : TossInfo
  outcome : Outcome
  player_of_match : List String
  registry : String → Option String
  players : List (String × List String)
  officials : OfficialsData

structure MetaData where
  data_version : Option String
deriving DecidableEq

structure MatchFile where
  match_id : String
  info : MatchInfo
  meta : MetaData
  innings : List InningsData

/-! ## The database -/

/-- A row of `matches` (the columns written by `process_json_file`). -/
structure MatchRow where
  start_date : Option Nat
  team_type : String
  match_type : String
  match_type_number : Option Int
  gender : String
  competition : String
  season : Option String
  season_year : Option Int
  team1 : Option String
  team2 : Option String
  venue : Option String
  city : Option String
  toss_winner : Option String
  toss_decision : Option String
  winner : Option String
  margin : Option String
  overs : Int
  balls_per_over : Int
  player_of_match : Option String
  data_version : Option String
deriving DecidableEq

/-- A row of `match_players` (the columns the source ever writes: the
roster upsert sets `team` and `registry_name`; the `INSERT IGNORE` from
the delivery walk sets `team` only, leaving `registry_name` null; the
`role` column is never written and is omitted). -/
structure MPRow where
  team : Option String
  registry_name : Option String
deriving DecidableEq

/-- A row of `innings` (the columns written by the aggregate upsert). -/
structure InningsRow where
  team : Option String
  batting_team : Option String
  bowling_team : Option String
  total_runs : Int
  total_balls : Int
  wickets : Int
  overs : ℚ
  run_rate : ℚ
deriving DecidableEq

/-- A row of `deliveries` (the columns written by the delivery insert;
the review/replacement columns are never set by the source). -/
structure DeliveryRow where
  match_id : String
  innings_number : Nat
  over_number : Int
  ball_in_over : Nat
  ball_sequence : Nat
  batsman : Option String
  batsman_id : Option Nat
  non_striker : Option String
  non_striker_id : Option Nat
  bowler : Option String
  bowler_id : Option Nat
  runs_batsman : Int
  runs_extras : Int
  runs_total : Int
  extra_type : Option String
  extra_value : Int
  is_wicket : Bool
  wicket_kind : Option String
  wicket_player : Option String
  wicket_player_id : Option Nat
  fielder : Option String
  fielder_id : Option Nat
deriving DecidableEq

/-- A row of `match_officials` (pure insert table). -/
structure OfficialRow where
  match_id : String
  role : String
  name : String
deriving DecidableEq

/-- The database: upsert-keyed tables as maps, append-only tables as
lists (`partnerships` is never written by the source and is omitted). -/
structure DB where
  matches_tbl : String → Option MatchRow
  players : PlayersState
  match_players : String × Nat → Option MPRow
  innings_tbl : String × Nat → Option InningsRow
  officials : List OfficialRow
  deliveries : List DeliveryRow

/-- Point update of a keyed table (`INSERT ... ON DUPLICATE KEY UPDATE`
that rewrites every modelled column). -/
def upd {K V : Type} [DecidableEq K] (m : K → Option V) (k : K) (v : V) :
    K → Option V :=
  fun x => if x = k then some v else m x

/-- A sequence of keyed upserts, applied in order. -/
def applyWrites {K V : Type} [DecidableEq K] :
    List (K × V) → (K → Option V) → (K → Option V)
  | [], m => m
  | w :: ws, m => applyWrites ws (upd m w.1 w.2)

/-- A sequence of `INSERT IGNORE`s, applied in order: each writes only if
the key is absent. -/
def applyIgnores {K V : Type} [DecidableEq K] :
    List (K × V) → (K → Option V) → (K → Option V)
  | [], m => m
  | w :: ws, m =>
    applyIgnores ws
      (match m w.1 with
       | some _ => m
       | none => upd m w.1 w.2)

/-! ## Header extraction -/

/-- The ordered date layouts tried by `safe_date`. -/
def date_formats : List String :=
  ["%Y-%m-%d", "%d/%m/%Y", "%m/%d/%Y", "%Y/%m/%d", "%d-%m-%Y", "%m-%d-%Y"]

/-- First successful parse over the format list. -/
def tryFormats (strp : String → String → Option Nat) :
    List String → String → Option Nat
  | [], _ => none
  | fmt :: rest, v =>
    match strp fmt v with
    | some d => some d
    | none => tryFormats strp rest v

/-- `safe_date` from `loader.py`; `strp fmt v` models
`datetime.strptime(v, fmt).date()` (`none` = raises). -/
def safe_date (strp : String → String → Option Nat) (val : Option String) :
    Option Nat :=
  match val with
  | none => none
  | some s =>
    if s = "" then none
    else
      let t := pystrip s
      if t = "" then none
      else tryFormats strp date_formats t

/-- `balls_per_over = safe_int(info.get('balls_per_over', 6))`. -/
def bpoOf (f : MatchFile) : Int := (f.info.balls_per_over).getD 6

/-- Header extraction: the tuple bound to the `matches` insert
(loader.py lines 371-437). -/
def matchRowOf (strp : String → String → Option Nat) (f : MatchFile) :
    MatchRow :=
  let info := f.info
  let season_year := info.season
  { start_date := safe_date strp info.dates.head?
    team_type := (info.team_type).getD "club"
    match_type := (info.match_type).getD "T20"
    match_type_number := info.event.match_number
    gender := (info.gender).getD "male"
    competition := (info.event.name).getD "Indian Premier League"
    season :=
      match season_year with
      | some y => if y ≠ 0 then some (toString y) else none
      | none => none
    season_year := season_year
    team1 := info.teams.head?
    team2 := info.teams.get? 1
    venue := info.venue
    city := info.city
    toss_winner := info.toss.winner
    toss_decision := info.toss.decision
    winner := info.outcome.winner
    margin := renderMargin info.outcome
    overs := (info.overs).getD 20
    balls_per_over := (info.balls_per_over).getD 6
    player_of_match :=
      if info.player_of_match ≠ [] then
        some (String.intercalate ", " info.player_of_match)
      else none
    data_version := f.meta.data_version }

/-- The four official role categories, in source order; pure inserts. -/
def officialRows (mid : String) (o : OfficialsData) : List OfficialRow :=
  o.umpires.map (fun n => { match_id := mid, role := "umpire", name := n })
    ++ o.tv_umpires.map (fun n => { match_id := mid, role := "tv_umpire", name := n })
    ++ o.reserve_umpires.map (fun n => { match_id := mid, role := "reserve_umpire", name := n })
    ++ o.match_referees.map (fun n => { match_id := mid, role := "match_referee", name := n })

/-! ## Roster processing

`get_or_create_player` handles its own storage errors and never raises,
so the pipeline calls it with the success-path oracles; its failure
behavior is settled separately on the function itself.  The per-link
upsert's own `try` (non-fatal) is likewise on the success path; a
failure of the whole roster block is the `rosterOk` Boolean of
`process_json_file`. -/

def processRosterNames (regF : String → Option String) (mid team : String) :
    List String → PlayersState × (String × Nat → Option MPRow) →
    PlayersState × (String × Nat → Option MPRow)
  | [], s => s
  | nm :: rest, (P, mp) =>
    let registry_id := regF nm
    let res := get_or_create_player true true P (some nm) registry_id
    let mp' :=
      match res.1 with
      | some p =>
        if p ≠ 0 then
          upd mp (mid, p) { team := some team, registry_name := registry_id }
        else mp
      | none => mp
    processRosterNames regF mid team rest (res.2, mp')

def processRoster (regF : String → Option String) (mid : String) :
    List (String × List String) →
    PlayersState × (String × Nat → Option MPRow) →
    PlayersState × (String × Nat → Option MPRow)
  | [], s => s
  | (team, names) :: rest, s =>
    processRoster regF mid rest (processRosterNames regF mid team names s)

/-! ## The innings/delivery walk -/

/-- The running counters of one `innings_data[innings_idx]` entry. -/
structure InnCounters where
  total_runs : Int
  total_balls : Int
  wickets : Int
  max_over : Int
deriving DecidableEq

/-- One finished `innings_data` entry. -/
structure InnAgg where
  team : Option String
  batting_team : Option String
  bowling_team : Option String
  counters : InnCounters
deriving DecidableEq

/-- State threaded through the walk (the file-level mutable locals plus
the tables the walk writes). -/
structure WalkState where
  players : PlayersState
  mp : String × Nat → Option MPRow
  rows : List DeliveryRow
  total_deliveries : Nat
  delivery_errors : Nat
  attempt : Nat

/-- `runs_batsman = safe_int(runs_info.get('batter', 0))`. -/
def runsBatsmanOf (d : DeliveryData) : Int := (d.runs.batter).getD 0

/-- `runs_extras = safe_int(runs_info.get('extras', 0))`. -/
def runsExtrasOf (d : DeliveryData) : Int := (d.runs.extras).getD 0

/-- `runs_total = safe_int(runs_info.get('total', runs_batsman + runs_extras))`. -/
def runsTotalOf (d : DeliveryData) : Int :=
  (d.runs.total).getD (runsBatsmanOf d + runsExtrasOf d)

/-- The fixed-priority extras scan: first of
wides, noballs, byes, legbyes, penalty. -/
def extraOf (e : ExtrasInfo) : Option String × Int :=
  match e.wides with
  | some v => (some "wides", v)
  | none =>
    match e.noballs with
    | some v => (some "noballs", v)
    | none =>
      match e.byes with
      | some v => (some "byes", v)
      | none =>
        match e.legbyes with
        | some v => (some "legbyes", v)
        | none =>
          match e.penalty with
          | some v => (some "penalty", v)
          | none => (none, 0)

/-- The opportunistic `INSERT IGNORE INTO match_players` guarded by
`if pid and pname:`. -/
def ignoreLink (mid : String) (mp : String × Nat → Option MPRow)
    (pid? : Option Nat) (pname team : Option String) :
    String × Nat → Option MPRow :=
  if truthyNat pid? && truthyStr pname then
    match pid? with
    | some p =>
      match mp (mid, p) with
      | some _ => mp
      | none => upd mp (mid, p) { team := team, registry_name := none }
    | none => mp
  else mp

/-- Wicket extraction for one delivery: takes the first dismissal record
and its first fielder, resolving both; returns
(kind, player name, player id, fielder name, fielder id, players). -/
def wicketExtract (regF : String → Option String) (P : PlayersState)
    (ws : List WicketInfo) :
    Option String × Option String × Option Nat × Option String × Option Nat ×
      PlayersState :=
  match ws with
  | [] => (none, none, none, none, none, P)
  | wk :: _ =>
    let wpn := wk.player_out
    let res := get_or_create_player true true P wpn (wpn.bind regF)
    match wk.fielders with
    | [] => (wk.kind, wpn, res.1, none, none, res.2)
    | fi :: _ =>
      let fn := fi.name
      let fres := get_or_create_player true true res.2 fn (fn.bind regF)
      (wk.kind, wpn, res.1, fn, fres.1, fres.2)

/-- One iteration of the per-delivery loop body (loader.py lines
521-603).  `dOk w.attempt` models whether the delivery `INSERT` raises;
the counters update happens before the insert attempt, exactly as in the
source; a failed insert consumes no sequence number and increments the
error tally instead. -/
def processDelivery (dOk : Nat → Bool) (regF : String → Option String)
    (mid : String) (iidx : Nat) (batting bowling : Option String)
    (over_num : Int) (ball_idx : Nat) (d : DeliveryData)
    (c : InnCounters) (seq : Nat) (w : WalkState) :
    InnCounters × Nat × WalkState :=
  let batsman_name := d.batter
  let non_striker_name := d.non_striker
  let bowler_name := d.bowler
  let bres := get_or_create_player true true w.players batsman_name (batsman_name.bind regF)
  let nres := get_or_create_player true true bres.2 non_striker_name (non_striker_name.bind regF)
  let ores := get_or_create_player true true nres.2 bowler_name (bowler_name.bind regF)
  let mp1 := ignoreLink mid w.mp bres.1 batsman_name batting
  let mp2 := ignoreLink mid mp1 nres.1 non_striker_name batting
  let mp3 := ignoreLink mid mp2 ores.1 bowler_name bowling
  let runs_batsman := runsBatsmanOf d
  let runs_extras := runsExtrasOf d
  let runs_total := runsTotalOf d
  let ext := extraOf d.extras
  let is_wicket : Bool := decide (d.wickets ≠ [])
  let wres := wicketExtract regF ores.2 d.wickets
  let c' : InnCounters :=
    { total_runs := c.total_runs + runs_total
      total_balls := c.total_balls + 1
      wickets := if is_wicket then c.wickets + (d.wickets.length : Int) else c.wickets
      max_over := c.max_over }
  let row : DeliveryRow :=
    { match_id := mid, innings_number := iidx, over_number := over_num
      ball_in_over := ball_idx, ball_sequence := seq
      batsman := batsman_name, batsman_id := bres.1
      non_striker := non_striker_name, non_striker_id := nres.1
      bowler := bowler_name, bowler_id := ores.1
      runs_batsman := runs_batsman, runs_extras := runs_extras
      runs_total := runs_total
      extra_type := ext.1, extra_value := ext.2
      is_wicket := is_wicket, wicket_kind := wres.1
      wicket_player := wres.2.1, wicket_player_id := wres.2.2.1
      fielder := wres.2.2.2.1, fielder_id := wres.2.2.2.2.1 }
  if dOk w.attempt then
    (c', seq + 1,
      { players := wres.2.2.2.2.2, mp := mp3, rows := w.rows ++ [row]
        total_deliveries := w.total_deliveries + 1
        delivery_errors := w.delivery_errors
        attempt := w.attempt + 1 })
  else
    (c', seq,
      { players := wres.2.2.2.2.2, mp := mp3, rows := w.rows
        total_deliveries := w.total_deliveries
        delivery_errors := w.delivery_errors + 1
        attempt := w.attempt + 1 })

/-- `for ball_idx, delivery in enumerate(deliveries, 1)`. -/
def processDeliveries (dOk : Nat → Bool) (regF : String → Option String)
    (mid : String) (iidx : Nat) (batting bowling : Option String)
    (over_num : Int) :
    Nat → List DeliveryData → InnCounters → Nat → WalkState →
    InnCounters × Nat × WalkState
  | _, [], c, seq, w => (c, seq, w)
  | ball_idx, d :: rest, c, seq, w =>
    let r := processDelivery dOk regF mid iidx batting bowling over_num ball_idx d c seq w
    processDeliveries dOk regF mid iidx batting bowling over_num
      (ball_idx + 1) rest r.1 r.2.1 r.2.2

/-- `for over_data in overs_list`, updating `max_over` first. -/
def processOvers (dOk : Nat → Bool) (regF : String → Option String)
    (mid : String) (iidx : Nat) (batting bowling : Option String) :
    List OverData → InnCounters → Nat → WalkState →
    InnCounters × Nat × WalkState
  | [], c, seq, w => (c, seq, w)
  | ov :: rest, c, seq, w =>
    let c0 : InnCounters := { c with max_over := max c.max_over ov.over }
    let r := processDeliveries dOk regF mid iidx batting bowling ov.over
      1 ov.deliveries c0 seq w
    processOvers dOk regF mid iidx batting bowling rest r.1 r.2.1 r.2.2

/-- Batting/bowling assignment (loader.py lines 505-510). -/
def battingBowling (team1 team2 : Option String) (iidx : Nat)
    (innings_team : Option String) : Option String × Option String :=
  if iidx = 1 then
    (innings_team, if innings_team = team1 then team2 else team1)
  else
    (innings_team, if innings_team = team2 then team1 else team2)

/-- One innings: counters initialized to zero, `ball_sequence = 1`. -/
def processInnings (dOk : Nat → Bool) (regF : String → Option String)
    (mid : String) (team1 team2 : Option String) (iidx : Nat)
    (inn : InningsData) (w : WalkState) : InnAgg × WalkState :=
  let bb := battingBowling team1 team2 iidx inn.team
  let r := processOvers dOk regF mid iidx bb.1 bb.2 inn.overs
    { total_runs := 0, total_balls := 0, wickets := 0, max_over := 0 } 1 w
  ({ team := inn.team, batting_team := bb.1, bowling_team := bb.2
     counters := r.1 }, r.2.2)

/-- `for innings_idx, innings in enumerate(innings_list, 1)`. -/
def processInningsList (dOk : Nat → Bool) (regF : String → Option String)
    (mid : String) (team1 team2 : Option String) :
    Nat → List InningsData → WalkState →
    List (Nat × InnAgg) × WalkState
  | _, [], w => ([], w)
  | iidx, inn :: rest, w =>
    let r := processInnings dOk regF mid team1 team2 iidx inn w
    let rr := processInningsList dOk regF mid team1 team2 (iidx + 1) rest r.2
    ((iidx, r.1) :: rr.1, rr.2)

/-! ## Innings aggregate persistence -/

/-- The `innings` row written for one aggregate (loader.py 605-625). -/
def inningsRowOf (bpo : Int) (a : InnAgg) : InningsRow :=
  let balls_played := a.counters.total_balls
  let op := overs_played balls_played bpo
  { team := a.team, batting_team := a.batting_team
    bowling_team := a.bowling_team
    total_runs := a.counters.total_runs
    total_balls := a.counters.total_balls
    wickets := a.counters.wickets
    overs := op
    run_rate := if 0 < op then (a.counters.total_runs : ℚ) / op else 0 }

/-- The aggregate-persistence loop.  `bpo = 0` models the
`ZeroDivisionError` of `balls_played // balls_per_over`; `iOk n` models
whether the n-th innings upsert raises.  Any failure aborts the loop
(the surrounding `except` returns `False`), leaving earlier upserts in
place (`autocommit` is on). -/
def persistInnings (iOk : Nat → Bool) (mid : String) (bpo : Int) :
    Nat → List (Nat × InnAgg) → (String × Nat → Option InningsRow) →
    Bool × (String × Nat → Option InningsRow)
  | _, [], tbl => (true, tbl)
  | n, a :: rest, tbl =>
    if bpo = 0 then (false, tbl)
    else if iOk n then
      persistInnings iOk mid bpo (n + 1) rest
        (upd tbl (mid, a.1) (inningsRowOf bpo a.2))
    else (false, tbl)

/-! ## The per-file pipeline -/

/-- `process_json_file` from `loader.py`.  Returns the success flag and
the database.  `headerOk` models the `matches` upsert raising (`return
False` before any other write); `rosterOk`/`officialsOk` model a failure
of the corresponding non-fatal block (logged, processing continues);
`iOk`/`dOk` are the per-row oracles described above.  Reading and JSON
parsing of the file happen before this model starts. -/
def process_json_file (strp : String → String → Option Nat)
    (headerOk rosterOk officialsOk : Bool) (iOk dOk : Nat → Bool)
    (f : MatchFile) (db : DB) : Bool × DB :=
  if headerOk then
    let mid := f.match_id
    let matches1 := upd db.matches_tbl mid (matchRowOf strp f)
    let regF := f.info.registry
    let rs :=
      if rosterOk then
        processRoster regF mid f.info.players (db.players, db.match_players)
      else (db.players, db.match_players)
    let offs1 :=
      if officialsOk then db.officials ++ officialRows mid f.info.officials
      else db.officials
    let team1 := f.info.teams.head?
    let team2 := f.info.teams.get? 1
    let w0 : WalkState :=
      { players := rs.1, mp := rs.2, rows := []
        total_deliveries := 0, delivery_errors := 0, attempt := 0 }
    let wr := processInningsList dOk regF mid team1 team2 1 f.innings w0
    let pr := persistInnings iOk mid (bpoOf f) 0 wr.1 db.innings_tbl
    (pr.1,
      { matches_tbl := matches1
        players := wr.2.players
        match_players := wr.2.mp
        innings_tbl := pr.2
        officials := offs1
        deliveries := db.deliveries ++ wr.2.rows })
  else (false, db)

/-- One fully successful ingestion of a file (all storage oracles
succeed), as a database transformer. -/
def ingestOnce (strp : String → String → Option Nat) (f : MatchFile)
    (db : DB) : DB :=
  (process_json_file strp true true true (fun _ => true) (fun _ => true) f db).2

/-- The empty database (fresh schema; auto-increment starts at 1). -/
def dbEmpty : DB :=
  { matches_tbl := fun _ => none
    players := { table := fun _ => none, nextId := 1 }
    match_players := fun _ => none
    innings_tbl := fun _ => none
    officials := []
    deliveries := [] }

/-! ## Concrete inputs used by witnesses and counterexamples -/

/-- A sample string-to-float parser standing in for Python `float`. -/
def pfSample : String → Option ℚ :=
  fun s => if s = "3.5" then some ((7 : ℚ) / 2) else none

/-- A sample strptime model: every format/value pair parses to day 42. -/
def strpSample : String → String → Option Nat := fun _ _ => some 42

/-- A player table holding one row `"A" ↦ (1, some "R1")`. -/
def stSample : PlayersState :=
  { table := fun k => if k = "A" then some { pid := 1, registry_id := some "R1" } else none
    nextId := 2 }

/-- A player table holding one row `"B" ↦ (5, none)`. -/
def stSampleB : PlayersState :=
  { table := fun k => if k = "B" then some { pid := 5, registry_id := none } else none
    nextId := 6 }

/-- A registry mapping name `"A"` to id `"rA"`. -/
def regSample : String → Option String :=
  fun n => if n = "A" then some "rA" else none

/-- A delivery: A facing C, B at the other end, 4 runs plus a wide,
A caught by D. -/
def dSample : DeliveryData :=
  { batter := some "A", non_striker := some "B", bowler := some "C"
    runs := { batter := some 4, extras := some 1, total := none }
    extras := { wides := some 1, noballs := none, byes := none
                legbyes := none, penalty := none }
    wickets := [{ kind := some "caught", player_out := some "A"
                  fielders := [{ name := some "D" }] }] }

/-- A delivery with an unresolvable batter (empty display name). -/
def dSampleEmptyBatter : DeliveryData :=
  { batter := some "", non_striker := some "B", bowler := some "C"
    runs := { batter := some 1, extras := none, total := none }
    extras := { wides := none, noballs := none, byes := none
                legbyes := none, penalty := none }
    wickets := [] }

/-- A one-innings, one-over, two-delivery match file. -/
def fSample : MatchFile :=
  { match_id := "m1"
    info :=
      { dates := ["2020-04-03"], venue := some "V", city := some "Ch"
        gender := none, match_type := none, team_type := none
        overs := some 20, balls_per_over := some 6
        teams := ["T1", "T2"]
        event := { name := none, match_number := some 7 }
        season := some 2020
        toss := { winner := some "T1", decision := some "bat" }
        outcome := { winner := some "T1"
                     outcome_by := some { runs := some 7, wickets := none } }
        player_of_match := ["A"]
        registry := regSample
        players := [("T1", ["A", "B"]), ("T2", ["C"])]
        officials := { umpires := ["U1"], tv_umpires := []
                       reserve_umpires := [], match_referees := [] } }
    meta := { data_version := some "1.0" }
    innings := [{ team := some "T1"
                  overs := [{ over := 0, deliveries := [dSample, dSample] }] }] }

/-- An initial walk state over the empty database. -/
def wSample : WalkState :=
  { players := dbEmpty.players, mp := dbEmpty.match_players, rows := []
    total_deliveries := 0, delivery_errors := 0, attempt := 0 }

end IPL

namespace IPL

/-! ## Claim C5: overs-played computation -/

/-- C5: for every innings with `b` balls counted and balls-per-over
`k > 0`, the stored overs value is `overs_played b k`, which equals
`b / k + (b % k)/10` when `b % k > 0` and exactly `b / k` otherwise;
in particular 17 balls at 6 balls per over yield 2.5 and 18 balls yield
exactly 3. -/
theorem C5_overs_played :
    (∀ (bpo : Int) (a : InnAgg),
      (inningsRowOf bpo a).overs = overs_played a.counters.total_balls bpo) ∧
    (∀ b k : Nat, 0 < k →
      overs_played b k =
        if 0 < b % k then ((b / k : Nat) : ℚ) + ((b % k : Nat) : ℚ) / 10
        else ((b / k : Nat) : ℚ)) ∧
    overs_played 17 6 = (5 : ℚ) / 2 ∧ overs_played 18 6 = 3 := by
  refine ⟨fun bpo a => rfl, ?_, by norm_num [overs_played, Int.fmod, Int.fdiv], by norm_num [overs_played, Int.fmod, Int.fdiv]⟩
  intro b k _
  have hmZ : Int.fmod (b : Int) (k : Int) = ((b % k : Nat) : Int) :=
    (Int.ofNat_fmod b k).symm
  have hd : ((Int.fdiv (b : Int) (k : Int) : Int) : ℚ) = ((b / k : Nat) : ℚ) := by
    rw [← Int.ofNat_fdiv]
    norm_cast
  have hmQ : ((Int.fmod (b : Int) (k : Int) : Int) : ℚ) = ((b % k : Nat) : ℚ) := by
    rw [← Int.ofNat_fmod]
    norm_cast
  simp only [overs_played]
  rw [hd, hmQ, hmZ]
  norm_cast

/-- Witness for C5 at 17 balls, 6 balls per over. -/
theorem C5_overs_played_witness :
    0 < 6 ∧
      overs_played 17 6 =
        if 0 < 17 % 6 then ((17 / 6 : Nat) : ℚ) + ((17 % 6 : Nat) : ℚ) / 10
        else ((17 / 6 : Nat) : ℚ) :=
  ⟨by decide, C5_overs_played.2.1 17 6 (by decide)⟩

/-! ## Claim C8: totality of the integer coercion -/

/-- C8: `safe_int` is total — for every loosely-typed input it returns
(the bare `except` catches everything): numeric and numeric-string
inputs are accepted with surrounding whitespace stripped, and null,
empty, or unparsable input yields the supplied default. -/
theorem C8_safe_int_total :
    ∀ (pf : String → Option ℚ) (d : Option Int),
      (safe_int pf PyVal.pynone d = d) ∧
      (∀ s, pystrip s = "" → safe_int pf (PyVal.pystr s) d = d) ∧
      (∀ s, pf (pystrip s) = none → safe_int pf (PyVal.pystr s) d = d) ∧
      (∀ s q, pystrip s ≠ "" → pf (pystrip s) = some q →
        safe_int pf (PyVal.pystr s) d = some (pytrunc q)) ∧
      (∀ n, safe_int pf (PyVal.pyint n) d = some n) ∧
      (∀ q, safe_int pf (PyVal.pyfloat q) d = some (pytrunc q)) ∧
      (safe_int pf PyVal.pyobj d = d) := by
  intro pf d
  refine ⟨rfl, ?_, ?_, ?_, fun n => rfl, fun q => rfl, rfl⟩
  · intro s hs
    by_cases h : s = "" <;> simp [safe_int, h, hs]
  · intro s hpf
    by_cases h1 : s = ""
    · simp [safe_int, h1]
    · by_cases h2 : pystrip s = "" <;> simp [safe_int, h1, h2, hpf]
  · intro s q h2 hq
    have h1 : s ≠ "" := by
      intro e
      exact h2 (by rw [e]; decide)
    simp [safe_int, h1, h2, hq]

/-- Witness for C8: whitespace-only input yields the default, a
whitespace-padded numeric string parses after stripping, and an
unparsable string yields the default. -/
theorem C8_safe_int_total_witness :
    safe_int pfSample (PyVal.pystr "  ") (some 9) = some 9 ∧
    safe_int pfSample (PyVal.pystr " 3.5 ") (some 9) = some 3 ∧
    safe_int pfSample (PyVal.pystr "abc") (some 9) = some 9 := by
  have h := C8_safe_int_total pfSample (some 9)
  refine ⟨h.2.1 "  " (by decide), ?_, h.2.2.1 "abc" (by decide)⟩
  rw [h.2.2.2.1 " 3.5 " ((7 : ℚ) / 2) (by decide) ?_]
  · norm_num [pytrunc]
  · show pfSample (pystrip " 3.5 ") = some ((7 : ℚ) / 2)
    have : pystrip " 3.5 " = "3.5" := by decide
    rw [this]
    simp [pfSample]

/-! ## Claim C9: margin rendering -/

/-- C9: the margin stored on the match row is rendered from the outcome:
`{by: {runs: n}}` gives `"n runs"`, `{by: {wickets: n}}` gives
`"n wickets"`, and an outcome with neither key leaves the margin
unset. -/
theorem C9_margin_rendering :
    (∀ (strp : String → String → Option Nat) (f : MatchFile),
      (matchRowOf strp f).margin = renderMargin f.info.outcome) ∧
    (∀ (w : Option String) (n : Int),
      renderMargin { winner := w, outcome_by := some { runs := some n, wickets := none } }
        = some (toString n ++ " runs")) ∧
    (∀ (w : Option String) (n : Int),
      renderMargin { winner := w, outcome_by := some { runs := none, wickets := some n } }
        = some (toString n ++ " wickets")) ∧
    (∀ w : Option String,
      renderMargin { winner := w, outcome_by := some { runs := none, wickets := none } } = none) ∧
    (∀ w : Option String, renderMargin { winner := w, outcome_by := none } = none) :=
  ⟨fun _ _ => rfl, fun _ _ => rfl, fun _ _ => rfl, fun _ => rfl, fun _ => rfl⟩

/-! ## Claim C3: registry-id merge policy on existing names -/

/-- C3 is false on the code: for a name already stored with a non-empty
registry id `"R1"`, a call supplying `"R2"` returns the existing player
id but *overwrites* the stored registry id with `"R2"` (the SQL is
`COALESCE(VALUES(registry_id), registry_id)`, i.e. the new value wins
whenever it is non-null), contradicting the claimed first-write-wins
policy. -/
theorem C3_counterexample :
    (get_or_create_player true true stSample (some "A") (some "R2")).1 = some 1 ∧
    ((get_or_create_player true true stSample (some "A") (some "R2")).2.table "A")
      = some { pid := 1, registry_id := some "R2" } ∧
    ((get_or_create_player true true stSample (some "A") (some "R2")).2.table "A")
      ≠ some { pid := 1, registry_id := some "R1" } := by
  refine ⟨?_, ?_, ?_⟩ <;> decide

/-- C3 (amended): when `resolve` is called with a name that already
exists, the existing player id is returned, and the stored registry id
becomes `mergeRegistry reg old` — the supplied value whenever it is
non-null, the previously stored one only when the supplied value is
null (last-non-null-write-wins, not first-write-wins); in particular a
null supplied value leaves the row unchanged. -/
theorem C3_registry_merge :
    ∀ (st : PlayersState) (nm : String) (reg : Option String) (r : PlayerRow),
      pystrip nm ≠ "" →
      st.table (truncate500 (pystrip nm)) = some r →
      (get_or_create_player true true st (some nm) reg).1 = some r.pid ∧
      ((get_or_create_player true true st (some nm) reg).2.table
          (truncate500 (pystrip nm)))
        = some { r with registry_id := mergeRegistry reg r.registry_id } ∧
      (reg = none →
        ((get_or_create_player true true st (some nm) reg).2.table
            (truncate500 (pystrip nm))) = some r) := by
  intro st nm reg r hnm hr
  have hk : keyOf (some nm) = some (truncate500 (pystrip nm)) := by
    simp [keyOf, hnm]
  refine ⟨?_, ?_, ?_⟩
  · simp [get_or_create_player, hk, hr]
  · simp [get_or_create_player, hk, hr]
  · intro hreg
    simp [get_or_create_player, hk, hr, hreg, mergeRegistry]

/-- Witness for C3 (amended) on a stored row with a null registry id and
a null supplied id: the id is returned and the row is unchanged. -/
theorem C3_registry_merge_witness :
    (get_or_create_player true true stSampleB (some "B") none).1 = some 5 ∧
    ((get_or_create_player true true stSampleB (some "B") none).2.table "B")
      = some { pid := 5, registry_id := none } := by
  have h := C3_registry_merge stSampleB "B" none { pid := 5, registry_id := none }
    (by decide) (by decide)
  exact ⟨h.1, h.2.2 rfl⟩

/-! ## Claim C7: resolver null/failure paths -/

/-- C7: `resolve` on a null, empty, or whitespace-only display name
returns none with no storage effect; when both the insert attempt and
the fallback lookup fail it returns none rather than raising; and the
caller still persists the delivery row, with a null batter reference,
when the batter name is unresolvable. -/
theorem C7_resolver_null_paths :
    (∀ (io lo : Bool) (st : PlayersState) (reg : Option String),
      get_or_create_player io lo st none reg = (none, st)) ∧
    (∀ (io lo : Bool) (st : PlayersState) (nm : String) (reg : Option String),
      pystrip nm = "" → get_or_create_player io lo st (some nm) reg = (none, st)) ∧
    (∀ (st : PlayersState) (nm reg : Option String),
      get_or_create_player false false st nm reg = (none, st)) ∧
    (∀ (dOk : Nat → Bool) (regF : String → Option String) (mid : String)
        (iidx : Nat) (batting bowling : Option String) (over_num : Int)
        (ball_idx : Nat) (d : DeliveryData) (c : InnCounters) (seq : Nat)
        (w : WalkState),
      d.batter = some "" → dOk w.attempt = true →
      ∃ row : DeliveryRow,
        (processDelivery dOk regF mid iidx batting bowling over_num ball_idx
            d c seq w).2.2.rows = w.rows ++ [row] ∧
        row.batsman_id = none) := by
  refine ⟨?_, ?_, ?_, ?_⟩
  · intro io lo st reg
    simp [get_or_create_player, keyOf]
  · intro io lo st nm reg h
    simp [get_or_create_player, keyOf, h]
  · intro st nm reg
    rcases h : keyOf nm with _ | k <;> simp [get_or_create_player, h]
  · intro dOk regF mid iidx batting bowling over_num ball_idx d c seq w hbat hdOk
    have hkey : keyOf (some "") = none := by decide
    have hb : (get_or_create_player true true w.players d.batter
        (d.batter.bind regF)).1 = none := by
      rw [hbat]
      simp [get_or_create_player, hkey]
    simp only [processDelivery, hdOk, if_true]
    exact ⟨_, rfl, hb⟩

/-- Witness for C7 on concrete states: whitespace-only name, double
storage failure, and a persisted row with a null batter reference. -/
theorem C7_resolver_null_paths_witness :
    get_or_create_player true true stSample (some " ") none = (none, stSample) ∧
    get_or_create_player false false stSample (some "A") (some "R2")
      = (none, stSample) ∧
    ∃ row : DeliveryRow,
      (processDelivery (fun _ => true) regSample "m1" 1 (some "T1") (some "T2")
          0 1 dSampleEmptyBatter
          { total_runs := 0, total_balls := 0, wickets := 0, max_over := 0 }
          1 wSample).2.2.rows = wSample.rows ++ [row] ∧
      row.batsman_id = none := by
  have h := C7_resolver_null_paths
  exact ⟨h.2.1 true true stSample " " none (by decide),
    h.2.2.1 stSample (some "A") (some "R2"),
    h.2.2.2 (fun _ => true) regSample "m1" 1 (some "T1") (some "T2") 0 1
      dSampleEmptyBatter
      { total_runs := 0, total_balls := 0, wickets := 0, max_over := 0 }
      1 wSample rfl rfl⟩

/-! ## Claim C6: unconditional counter updates -/

/-- C6: for every delivery reaching the counter-update step, the innings
counters update before the insert is attempted, for any insert oracle:
balls increment by one and runs by the delivery's run total even when
the insert fails, and the wicket counter increments by the number of
dismissal records on the delivery; the row list grows only when the
insert succeeds. -/
theorem C6_counters_unconditional :
    ∀ (dOk : Nat → Bool) (regF : String → Option String) (mid : String)
      (iidx : Nat) (batting bowling : Option String) (over_num : Int)
      (ball_idx : Nat) (d : DeliveryData) (c : InnCounters) (seq : Nat)
      (w : WalkState),
      (processDelivery dOk regF mid iidx batting bowling over_num ball_idx
          d c seq w).1.total_balls = c.total_balls + 1 ∧
      (processDelivery dOk regF mid iidx batting bowling over_num ball_idx
          d c seq w).1.total_runs = c.total_runs + runsTotalOf d ∧
      (processDelivery dOk regF mid iidx batting bowling over_num ball_idx
          d c seq w).1.wickets = c.wickets + (d.wickets.length : Int) ∧
      (processDelivery dOk regF mid iidx batting bowling over_num ball_idx
          d c seq w).2.2.rows.length
        = w.rows.length + (if dOk w.attempt then 1 else 0) ∧
      (processDelivery dOk regF mid iidx batting bowling over_num ball_idx
          d c seq w).2.1 = seq + (if dOk w.attempt then 1 else 0) := by
  intro dOk regF mid iidx batting bowling over_num ball_idx d c seq w
  by_cases h : dOk w.attempt <;>
    cases hw : d.wickets <;>
      simp [processDelivery, h, hw]

/-! ## Ball-sequence bookkeeping (used by claim C10)

The walk appends rows and only a successful insert consumes a sequence
number, so the appended segments always carry the contiguous sequence
values starting from the incoming counter. -/

/-- One delivery appends a (possibly empty) segment whose sequence
values continue contiguously from `seq`. -/
theorem processDelivery_seg (dOk : Nat → Bool) (regF : String → Option String)
    (mid : String) (iidx : Nat) (batting bowling : Option String)
    (over_num : Int) (ball_idx : Nat) (d : DeliveryData)
    (c : InnCounters) (seq : Nat) (w : WalkState) :
    ∃ seg : List DeliveryRow,
      (processDelivery dOk regF mid iidx batting bowling over_num ball_idx
          d c seq w).2.2.rows = w.rows ++ seg ∧
      seg.map (fun r => r.ball_sequence) = List.range' seq seg.length ∧
      (processDelivery dOk regF mid iidx batting bowling over_num ball_idx
          d c seq w).2.1 = seq + seg.length ∧
      (∀ r ∈ seg, r.match_id = mid ∧ r.innings_number = iidx) := by
  by_cases h : dOk w.attempt
  · simp only [processDelivery, h, if_true]
    refine ⟨[_], rfl, ?_, ?_, ?_⟩
    · simp [List.range'_succ]
    · simp
    · simp
  · refine ⟨[], ?_, rfl, ?_, by simp⟩ <;> simp [processDelivery, h]

/-- A list of deliveries appends a segment with contiguous sequence
values continuing from `seq`. -/
theorem processDeliveries_seg (dOk : Nat → Bool) (regF : String → Option String)
    (mid : String) (iidx : Nat) (batting bowling : Option String)
    (over_num : Int) :
    ∀ (ds : List DeliveryData) (ball_idx : Nat) (c : InnCounters)
      (seq : Nat) (w : WalkState),
      ∃ seg : List DeliveryRow,
        (processDeliveries dOk regF mid iidx batting bowling over_num
            ball_idx ds c seq w).2.2.rows = w.rows ++ seg ∧
        seg.map (fun r => r.ball_sequence) = List.range' seq seg.length ∧
        (processDeliveries dOk regF mid iidx batting bowling over_num
            ball_idx ds c seq w).2.1 = seq + seg.length ∧
        (∀ r ∈ seg, r.match_id = mid ∧ r.innings_number = iidx)
  | [], ball_idx, c, seq, w => ⟨[], by simp [processDeliveries], rfl, by simp [processDeliveries], by simp⟩
  | d :: ds, ball_idx, c, seq, w => by
    obtain ⟨seg1, h1, m1, q1, a1⟩ :=
      processDelivery_seg dOk regF mid iidx batting bowling over_num ball_idx d c seq w
    obtain ⟨seg2, h2, m2, q2, a2⟩ :=
      processDeliveries_seg dOk regF mid iidx batting bowling over_num ds
        (ball_idx + 1)
        (processDelivery dOk regF mid iidx batting bowling over_num ball_idx d c seq w).1
        (processDelivery dOk regF mid iidx batting bowling over_num ball_idx d c seq w).2.1
        (processDelivery dOk regF mid iidx batting bowling over_num ball_idx d c seq w).2.2
    refine ⟨seg1 ++ seg2, ?_, ?_, ?_, ?_⟩
    · simp only [processDeliveries]
      rw [h2, h1, List.append_assoc]
    · rw [List.map_append, m1, m2, q1]
      simp [Nat.add_comm] 
    · simp only [processDeliveries]
      rw [q2, q1]
      simp [Nat.add_assoc]
    · intro r hr
      rcases List.mem_append.mp hr with h | h
      · exact a1 r h
      · exact a2 r h

/-- The over list appends a segment with contiguous sequence values. -/
theorem processOvers_seg (dOk : Nat → Bool) (regF : String → Option String)
    (mid : String) (iidx : Nat) (batting bowling : Option String) :
    ∀ (ovs : List OverData) (c : InnCounters) (seq : Nat) (w : WalkState),
      ∃ seg : List DeliveryRow,
        (processOvers dOk regF mid iidx batting bowling ovs c seq w).2.2.rows
          = w.rows ++ seg ∧
        seg.map (fun r => r.ball_sequence) = List.range' seq seg.length ∧
        (processOvers dOk regF mid iidx batting bowling ovs c seq w).2.1
          = seq + seg.length ∧
        (∀ r ∈ seg, r.match_id = mid ∧ r.innings_number = iidx)
  | [], c, seq, w => ⟨[], by simp [processOvers], rfl, by simp [processOvers], by simp⟩
  | ov :: ovs, c, seq, w => by
    obtain ⟨seg1, h1, m1, q1, a1⟩ :=
      processDeliveries_seg dOk regF mid iidx batting bowling ov.over
        ov.deliveries 1 { c with max_over := max c.max_over ov.over } seq w
    obtain ⟨seg2, h2, m2, q2, a2⟩ :=
      processOvers_seg dOk regF mid iidx batting bowling ovs
        (processDeliveries dOk regF mid iidx batting bowling ov.over 1
          ov.deliveries { c with max_over := max c.max_over ov.over } seq w).1
        (processDeliveries dOk regF mid iidx batting bowling ov.over 1
          ov.deliveries { c with max_over := max c.max_over ov.over } seq w).2.1
        (processDeliveries dOk regF mid iidx batting bowling ov.over 1
          ov.deliveries { c with max_over := max c.max_over ov.over } seq w).2.2
    refine ⟨seg1 ++ seg2, ?_, ?_, ?_, ?_⟩
    · simp only [processOvers]
      rw [h2, h1, List.append_assoc]
    · rw [List.map_append, m1, m2, q1]
      simp [Nat.add_comm] 
    · simp only [processOvers]
      rw [q2, q1]
      simp [Nat.add_assoc]
    · intro r hr
      rcases List.mem_append.mp hr with h | h
      · exact a1 r h
      · exact a2 r h

/-! ## Claim C10: contiguous ball-sequence numbering -/

/-- C10: within a single ingestion of one innings, the sequence counter
starts at 1 and is incremented only after a successful insert, so the
delivery rows persisted for that innings carry exactly the contiguous
sequence values `1..n` in persistence order, for any insert oracle — a
delivery skipped due to an error consumes no sequence number. -/
theorem C10_ball_sequence_contiguous :
    ∀ (dOk : Nat → Bool) (regF : String → Option String) (mid : String)
      (team1 team2 : Option String) (iidx : Nat) (inn : InningsData)
      (w : WalkState),
      ∃ seg : List DeliveryRow,
        (processInnings dOk regF mid team1 team2 iidx inn w).2.rows
          = w.rows ++ seg ∧
        seg.map (fun r => r.ball_sequence) = List.range' 1 seg.length := by
  intro dOk regF mid team1 team2 iidx inn w
  obtain ⟨seg, h, m, -, -⟩ :=
    processOvers_seg dOk regF mid iidx
      (battingBowling team1 team2 iidx inn.team).1
      (battingBowling team1 team2 iidx inn.team).2 inn.overs
      { total_runs := 0, total_balls := 0, wickets := 0, max_over := 0 } 1 w
  exact ⟨seg, h, m⟩

/-! ## Claim C4: which child-entity failures are fatal -/

/-- With a non-zero balls-per-over and no upsert failures the aggregate
loop reports success. -/
theorem persistInnings_allOk (mid : String) (bpo : Int) (hbpo : bpo ≠ 0) :
    ∀ (n : Nat) (aggs : List (Nat × InnAgg))
      (tbl : String × Nat → Option InningsRow),
      (persistInnings (fun _ => true) mid bpo n aggs tbl).1 = true
  | _, [], _ => rfl
  | n, a :: rest, tbl => by
    simp only [persistInnings, if_neg hbpo, if_true]
    exact persistInnings_allOk mid bpo hbpo (n + 1) rest _

/-- C4 is false on the code: with a successfully persisted header, an
error in the innings-aggregate persistence step (`iOk 0 = false` on a
file with one innings) makes `process_json_file` report the file as
failed (`return False` in the final `except` block), contrary to the
claim that innings-aggregate errors leave the file successful. -/
theorem C4_counterexample :
    (process_json_file strpSample true true true (fun _ => false)
        (fun _ => true) fSample dbEmpty).1 = false := rfl

/-- C4 (amended): for a file whose match header persisted successfully,
failures of the roster block and of the officials block are non-fatal —
the file is still reported successful (given the aggregate step itself
succeeds) — and delivery-insert failures are likewise non-fatal; but an
error during the innings-aggregate persistence step causes the file to
be reported as failed. -/
theorem C4_child_entity_fatality :
    ∀ (strp : String → String → Option Nat) (f : MatchFile) (db : DB)
      (dOk : Nat → Bool) (k : Int),
      f.info.balls_per_over = some k → k ≠ 0 →
      (process_json_file strp true false false (fun _ => true) dOk f db).1 = true ∧
      (f.innings ≠ [] →
        (process_json_file strp true true true (fun _ => false) dOk f db).1 = false) := by
  intro strp f db dOk k hk hknz
  have hb : bpoOf f = k := by simp [bpoOf, hk]
  constructor
  · simp only [process_json_file, if_true]
    rw [hb]
    exact persistInnings_allOk f.match_id k hknz 0 _ _
  · intro hne
    rcases hin : f.innings with _ | ⟨inn, rest⟩
    · exact absurd hin hne
    simp only [process_json_file, if_true, hin, processInningsList]
    rw [hb]
    simp [persistInnings, hknz]

/-- Witness for C4 (amended) on the sample file. -/
theorem C4_child_entity_fatality_witness :
    (process_json_file strpSample true false false (fun _ => true)
        (fun _ => true) fSample dbEmpty).1 = true ∧
    (process_json_file strpSample true true true (fun _ => false)
        (fun _ => true) fSample dbEmpty).1 = false := by
  have h := C4_child_entity_fatality strpSample fSample dbEmpty
    (fun _ => true) 6 rfl (by decide)
  exact ⟨h.1, h.2 (by decide)⟩

/-! ## Pointwise semantics of keyed-write sequences

Used to reason about re-ingestion: a repeated sequence of upserts and
insert-ignores reaches a fixed point after the first application. -/

/-- The last value written for key `k` by an upsert sequence. -/
def lastWrite {K V : Type} [DecidableEq K] (k : K) : List (K × V) → Option V
  | [] => none
  | w :: ws =>
    match lastWrite k ws with
    | some v => some v
    | none => if w.1 = k then some w.2 else none

/-- The first value written for key `k` by an insert-ignore sequence. -/
def firstWrite {K V : Type} [DecidableEq K] (k : K) : List (K × V) → Option V
  | [] => none
  | w :: ws => if w.1 = k then some w.2 else firstWrite k ws

theorem upd_apply {K V : Type} [DecidableEq K] (m : K → Option V) (k x : K)
    (v : V) : upd m k v x = if x = k then some v else m x := rfl

theorem applyWrites_apply {K V : Type} [DecidableEq K] :
    ∀ (ws : List (K × V)) (m : K → Option V) (k : K),
      applyWrites ws m k =
        match lastWrite k ws with
        | some v => some v
        | none => m k
  | [], m, k => rfl
  | w :: ws, m, k => by
    simp only [applyWrites, lastWrite]
    rw [applyWrites_apply ws (upd m w.1 w.2) k]
    rcases h : lastWrite k ws with _ | v
    · simp only [upd_apply]
      by_cases hk : w.1 = k
      · rw [if_pos hk.symm, if_pos hk]
      · rw [if_neg (fun e => hk e.symm), if_neg hk]
    · rfl

theorem applyIgnores_apply {K V : Type} [DecidableEq K] :
    ∀ (ws : List (K × V)) (m : K → Option V) (k : K),
      applyIgnores ws m k =
        match m k with
        | some v => some v
        | none => firstWrite k ws
  | [], m, k => by
    rcases h : m k with _ | v <;> simp [applyIgnores, firstWrite, h]
  | w :: ws, m, k => by
    simp only [applyIgnores, firstWrite]
    rcases hw : m w.1 with _ | v
    · rw [applyIgnores_apply ws (upd m w.1 w.2) k]
      simp only [upd_apply]
      by_cases hk : k = w.1
      · subst hk
        simp [hw]
      · have : ¬(w.1 = k) := fun e => hk e.symm
        simp [hk, this]
    · rw [applyIgnores_apply ws m k]
      rcases hmk : m k with _ | u
      · by_cases hk : w.1 = k
        · subst hk
          rw [hw] at hmk
          exact absurd hmk (by simp)
        · simp [hk]
      · rfl

/-- Re-applying the same upsert sequence is a no-op. -/
theorem applyWrites_idem {K V : Type} [DecidableEq K] (ws : List (K × V))
    (m : K → Option V) :
    applyWrites ws (applyWrites ws m) = applyWrites ws m := by
  funext k
  rw [applyWrites_apply, applyWrites_apply]
  rcases h : lastWrite k ws with _ | v <;> simp

/-- Re-applying the same upsert-then-ignore round is a no-op. -/
theorem applyIgnores_applyWrites_idem {K V : Type} [DecidableEq K]
    (ws ig : List (K × V)) (m : K → Option V) :
    applyIgnores ig (applyWrites ws (applyIgnores ig (applyWrites ws m)))
      = applyIgnores ig (applyWrites ws m) := by
  funext k
  rw [applyIgnores_apply, applyWrites_apply, applyIgnores_apply, applyWrites_apply]
  rcases h : lastWrite k ws with _ | v
  · rcases hm : m k with _ | u
    · rcases hig : firstWrite k ig with _ | x <;> simp
    · simp
  · simp

/-- Updating the same key twice with the same value is a no-op. -/
theorem upd_upd {K V : Type} [DecidableEq K] (m : K → Option V) (k : K)
    (v : V) : upd (upd m k v) k v = upd m k v := by
  funext x
  simp only [upd_apply]
  by_cases h : x = k <;> simp [h]

/-- Ignore-sequences split over append. -/
theorem applyIgnores_append {K V : Type} [DecidableEq K] :
    ∀ (a b : List (K × V)) (m : K → Option V),
      applyIgnores (a ++ b) m = applyIgnores b (applyIgnores a m)
  | [], b, m => rfl
  | w :: a, b, m => by
    simp only [List.cons_append, applyIgnores]
    exact applyIgnores_append a b _

/-- Upsert-sequences split over append. -/
theorem applyWrites_append {K V : Type} [DecidableEq K] :
    ∀ (a b : List (K × V)) (m : K → Option V),
      applyWrites (a ++ b) m = applyWrites b (applyWrites a m)
  | [], b, m => rfl
  | w :: a, b, m => by
    simp only [List.cons_append, applyWrites]
    exact applyWrites_append a b _

/-! ## Player-state lemmas

`pidsLe P Q` says every player row of `P` is still present in `Q` with
the same id: the player table only ever grows, and an id never changes
once assigned.  This is what makes re-ingestion resolve every name to
the same id. -/

def pidsLe (P Q : PlayersState) : Prop :=
  ∀ k p, pidAt P k = some p → pidAt Q k = some p

theorem pidsLe_refl (P : PlayersState) : pidsLe P P := fun _ _ h => h

theorem pidsLe_trans {P Q R : PlayersState} (h1 : pidsLe P Q)
    (h2 : pidsLe Q R) : pidsLe P R :=
  fun k p h => h2 k p (h1 k p h)

theorem goc_pidsLe (io lo : Bool) (st : PlayersState) (n r : Option String) :
    pidsLe st (get_or_create_player io lo st n r).2 := by
  intro k p hp
  rcases hk : keyOf n with _ | key
  · simpa [get_or_create_player, hk] using hp
  · by_cases hio : io
    · rcases ht : st.table key with _ | row
      · have hkk : k ≠ key := by
          intro e
          rw [e] at hp
          simp [pidAt, ht] at hp
        simp only [get_or_create_player, hk, hio, ht, if_true] at hp ⊢
        simpa [pidAt, hkk] using hp
      · simp only [get_or_create_player, hk, hio, ht, if_true] at hp ⊢
        by_cases hkk : k = key
        · subst hkk
          simp [pidAt, ht] at hp
          simp [pidAt, hp]
        · simpa [pidAt, hkk] using hp
    · by_cases hlo : lo
      · rcases ht : st.table key with _ | row <;>
          simpa [get_or_create_player, hk, hio, hlo, ht] using hp
      · simpa [get_or_create_player, hk, hio, hlo] using hp

/-- The id returned by a successful call is what the post-state resolves
the name to. -/
theorem goc_ret_resolve (st : PlayersState) (n r : Option String) :
    (get_or_create_player true true st n r).1
      = resolveName (get_or_create_player true true st n r).2 n := by
  rcases hk : keyOf n with _ | key
  · simp [get_or_create_player, resolveName, hk]
  · rcases ht : st.table key with _ | row <;>
      simp [get_or_create_player, resolveName, hk, ht, pidAt]

/-- A successful call leaves the name's key present. -/
theorem goc_presence (st : PlayersState) (n r : Option String) (key : String)
    (hk : keyOf n = some key) :
    (pidAt (get_or_create_player true true st n r).2 key).isSome := by
  rcases ht : st.table key with _ | row <;>
    simp [get_or_create_player, hk, ht, pidAt]

theorem pidsLe_isSome {P Q : PlayersState} (h : pidsLe P Q) {k : String} :
    (pidAt P k).isSome → (pidAt Q k).isSome := by
  intro hs
  rcases hp : pidAt P k with _ | p
  · rw [hp] at hs
    simp at hs
  · rw [h k p hp]
    rfl

theorem resolveName_mono {P Q : PlayersState} (h : pidsLe P Q)
    {n : Option String} {p : Nat} :
    resolveName P n = some p → resolveName Q n = some p := by
  rcases hk : keyOf n with _ | key
  · simp [resolveName, hk]
  · simp only [resolveName, hk, Option.bind_some]
    exact h key p

/-- The return value of a successful call equals the resolution of the
name against any later state. -/
theorem goc_ret_rho (st : PlayersState) (n r : Option String)
    (Q : PlayersState)
    (hQ : pidsLe (get_or_create_player true true st n r).2 Q) :
    (get_or_create_player true true st n r).1 = resolveName Q n := by
  rcases hk : keyOf n with _ | key
  · simp [get_or_create_player, resolveName, hk]
  · have h1 := goc_ret_resolve st n r
    have h2 : ∃ p, resolveName (get_or_create_player true true st n r).2 n
        = some p := by
      rcases ht : st.table key with _ | row <;>
        simp [get_or_create_player, resolveName, hk, ht, pidAt]
    obtain ⟨p, hp⟩ := h2
    rw [h1, hp, resolveName_mono hQ hp]

/-- On a state already containing the name's key, a successful call
changes no player id. -/
theorem goc_pid_preserved (st : PlayersState) (n r : Option String)
    (hsat : ∀ key, keyOf n = some key → (pidAt st key).isSome) :
    ∀ k, pidAt (get_or_create_player true true st n r).2 k = pidAt st k := by
  intro k
  rcases hk : keyOf n with _ | key
  · simp [get_or_create_player, hk]
  · have hks := hsat key hk
    rcases ht : st.table key with _ | row
    · simp [pidAt, ht] at hks
    · simp only [get_or_create_player, hk, ht, if_true]
      by_cases hkk : k = key
      · subst hkk
        simp [pidAt, ht]
      · simp [pidAt, hkk]

theorem resolveName_ext {P Q : PlayersState}
    (h : ∀ k, pidAt P k = pidAt Q k) :
    ∀ n, resolveName P n = resolveName Q n := by
  intro n
  rcases hk : keyOf n with _ | key <;> simp [resolveName, hk, h]

theorem wicketExtract_pidsLe (regF : String → Option String)
    (P : PlayersState) (ws : List WicketInfo) :
    pidsLe P (wicketExtract regF P ws).2.2.2.2.2 := by
  rcases ws with _ | ⟨wk, rest⟩
  · exact pidsLe_refl _
  · rcases hf : wk.fielders with _ | ⟨fi, frest⟩
    · simpa [wicketExtract, hf] using
        goc_pidsLe true true P wk.player_out (wk.player_out.bind regF)
    · simp only [wicketExtract, hf]
      exact pidsLe_trans
        (goc_pidsLe true true P wk.player_out (wk.player_out.bind regF))
        (goc_pidsLe true true _ fi.name (fi.name.bind regF))

/-! ## The resolver-call trace of a file

The control flow around every `get_or_create_player` call is determined
by the file alone, so the multiset of names resolved during an ingestion
is a pure function of the file.  `SatKeys P ns` says the keys of all
those names are already present in `P`. -/

def namesOfDelivery (d : DeliveryData) : List (Option String) :=
  [d.batter, d.non_striker, d.bowler] ++
    (match d.wickets with
     | [] => []
     | wk :: _ =>
       wk.player_out ::
         (match wk.fielders with
          | [] => []
          | fi :: _ => [fi.name]))

def namesOfDeliveries : List DeliveryData → List (Option String)
  | [] => []
  | d :: ds => namesOfDelivery d ++ namesOfDeliveries ds

def namesOfOvers : List OverData → List (Option String)
  | [] => []
  | ov :: ovs => namesOfDeliveries ov.deliveries ++ namesOfOvers ovs

def namesOfInningsList : List InningsData → List (Option String)
  | [] => []
  | inn :: rest => namesOfOvers inn.overs ++ namesOfInningsList rest

def namesOfRosterNames : List String → List (Option String)
  | [] => []
  | nm :: rest => some nm :: namesOfRosterNames rest

def namesOfRoster : List (String × List String) → List (Option String)
  | [] => []
  | t :: rest => namesOfRosterNames t.2 ++ namesOfRoster rest

def namesOfFile (f : MatchFile) : List (Option String) :=
  namesOfRoster f.info.players ++ namesOfInningsList f.innings

def SatKeys (P : PlayersState) (ns : List (Option String)) : Prop :=
  ∀ n ∈ ns, ∀ key, keyOf n = some key → (pidAt P key).isSome

theorem SatKeys_append {P : PlayersState} {a b : List (Option String)} :
    SatKeys P (a ++ b) ↔ SatKeys P a ∧ SatKeys P b := by
  constructor
  · intro h
    exact ⟨fun n hn => h n (List.mem_append_left _ hn),
      fun n hn => h n (List.mem_append_right _ hn)⟩
  · rintro ⟨ha, hb⟩ n hn
    rcases List.mem_append.mp hn with h | h
    · exact ha n h
    · exact hb n h

theorem SatKeys_of_pidAt_eq {P Q : PlayersState}
    (h : ∀ k, pidAt P k = pidAt Q k) {ns : List (Option String)} :
    SatKeys Q ns → SatKeys P ns := by
  intro hs n hn key hk
  rw [h key]
  exact hs n hn key hk

/-! ## Pure denotation of the walk against a fixed resolution

`ρ` stands for the name-resolution function of the final player state;
every row, roster write, and ignore-insert produced by an all-successful
walk is a pure function of the file and `ρ`. -/

def mkIgnoreD (pid? : Option Nat) (mid : String) (n team : Option String) :
    List ((String × Nat) × MPRow) :=
  if truthyNat pid? && truthyStr n then
    match pid? with
    | some p => [((mid, p), { team := team, registry_name := none })]
    | none => []
  else []

def ignoresOfDeliveryD (ρ : Option String → Option Nat) (mid : String)
    (batting bowling : Option String) (d : DeliveryData) :
    List ((String × Nat) × MPRow) :=
  mkIgnoreD (ρ d.batter) mid d.batter batting ++
    mkIgnoreD (ρ d.non_striker) mid d.non_striker batting ++
    mkIgnoreD (ρ d.bowler) mid d.bowler bowling

def ignoresOfDeliveriesD (ρ : Option String → Option Nat) (mid : String)
    (batting bowling : Option String) : List DeliveryData →
    List ((String × Nat) × MPRow)
  | [] => []
  | d :: ds =>
    ignoresOfDeliveryD ρ mid batting bowling d ++
      ignoresOfDeliveriesD ρ mid batting bowling ds

def ignoresOfOversD (ρ : Option String → Option Nat) (mid : String)
    (batting bowling : Option String) : List OverData →
    List ((String × Nat) × MPRow)
  | [] => []
  | ov :: ovs =>
    ignoresOfDeliveriesD ρ mid batting bowling ov.deliveries ++
      ignoresOfOversD ρ mid batting bowling ovs

def ignoresOfInningsListD (ρ : Option String → Option Nat) (mid : String)
    (t1 t2 : Option String) : Nat → List InningsData →
    List ((String × Nat) × MPRow)
  | _, [] => []
  | iidx, inn :: rest =>
    ignoresOfOversD ρ mid (battingBowling t1 t2 iidx inn.team).1
        (battingBowling t1 t2 iidx inn.team).2 inn.overs ++
      ignoresOfInningsListD ρ mid t1 t2 (iidx + 1) rest

/-- The delivery row the walk persists, expressed against `ρ`. -/
def rowOfD (ρ : Option String → Option Nat) (mid : String) (iidx : Nat)
    (over_num : Int) (ball_idx seq : Nat) (d : DeliveryData) : DeliveryRow :=
  { match_id := mid, innings_number := iidx, over_number := over_num
    ball_in_over := ball_idx, ball_sequence := seq
    batsman := d.batter, batsman_id := ρ d.batter
    non_striker := d.non_striker, non_striker_id := ρ d.non_striker
    bowler := d.bowler, bowler_id := ρ d.bowler
    runs_batsman := runsBatsmanOf d, runs_extras := runsExtrasOf d
    runs_total := runsTotalOf d
    extra_type := (extraOf d.extras).1, extra_value := (extraOf d.extras).2
    is_wicket := decide (d.wickets ≠ [])
    wicket_kind :=
      match d.wickets with
      | [] => none
      | wk :: _ => wk.kind
    wicket_player :=
      match d.wickets with
      | [] => none
      | wk :: _ => wk.player_out
    wicket_player_id :=
      match d.wickets with
      | [] => none
      | wk :: _ => ρ wk.player_out
    fielder :=
      match d.wickets with
      | [] => none
      | wk :: _ =>
        match wk.fielders with
        | [] => none
        | fi :: _ => fi.name
    fielder_id :=
      match d.wickets with
      | [] => none
      | wk :: _ =>
        match wk.fielders with
        | [] => none
        | fi :: _ => ρ fi.name }

def rowsOfDeliveriesD (ρ : Option String → Option Nat) (mid : String)
    (iidx : Nat) (over_num : Int) : Nat → Nat → List DeliveryData →
    List DeliveryRow
  | _, _, [] => []
  | ball_idx, seq, d :: ds =>
    rowOfD ρ mid iidx over_num ball_idx seq d ::
      rowsOfDeliveriesD ρ mid iidx over_num (ball_idx + 1) (seq + 1) ds

def rowsOfOversD (ρ : Option String → Option Nat) (mid : String)
    (iidx : Nat) : Nat → List OverData → List DeliveryRow
  | _, [] => []
  | seq, ov :: ovs =>
    rowsOfDeliveriesD ρ mid iidx ov.over 1 seq ov.deliveries ++
      rowsOfOversD ρ mid iidx (seq + ov.deliveries.length) ovs

def rowsOfInningsListD (ρ : Option String → Option Nat) (mid : String)
    (t1 t2 : Option String) : Nat → List InningsData → List DeliveryRow
  | _, [] => []
  | iidx, inn :: rest =>
    rowsOfOversD ρ mid iidx 1 inn.overs ++
      rowsOfInningsListD ρ mid t1 t2 (iidx + 1) rest

/-- The counter update of one delivery (pure form of the source's
unconditional `innings_data[...] +=` block). -/
def stepCounters (d : DeliveryData) (c : InnCounters) : InnCounters :=
  { total_runs := c.total_runs + runsTotalOf d
    total_balls := c.total_balls + 1
    wickets :=
      if decide (d.wickets ≠ []) = true then c.wickets + (d.wickets.length : Int)
      else c.wickets
    max_over := c.max_over }

def countersOfDeliveriesD : List DeliveryData → InnCounters → InnCounters
  | [], c => c
  | d :: ds, c => countersOfDeliveriesD ds (stepCounters d c)

def countersOfOversD : List OverData → InnCounters → InnCounters
  | [], c => c
  | ov :: ovs, c =>
    countersOfOversD ovs
      (countersOfDeliveriesD ov.deliveries
        { c with max_over := max c.max_over ov.over })

/-- The finished aggregate of one innings, a pure function of the file. -/
def aggD (t1 t2 : Option String) (iidx : Nat) (inn : InningsData) : InnAgg :=
  { team := inn.team
    batting_team := (battingBowling t1 t2 iidx inn.team).1
    bowling_team := (battingBowling t1 t2 iidx inn.team).2
    counters :=
      countersOfOversD inn.overs
        { total_runs := 0, total_balls := 0, wickets := 0, max_over := 0 } }

def aggsD (t1 t2 : Option String) : Nat → List InningsData →
    List (Nat × InnAgg)
  | _, [] => []
  | iidx, inn :: rest => (iidx, aggD t1 t2 iidx inn) :: aggsD t1 t2 (iidx + 1) rest

def rosterNamesWritesD (ρ : Option String → Option Nat)
    (regF : String → Option String) (mid team : String) :
    List String → List ((String × Nat) × MPRow)
  | [] => []
  | nm :: rest =>
    (match ρ (some nm) with
     | some p =>
       if p ≠ 0 then
         [((mid, p), { team := some team, registry_name := regF nm })]
       else []
     | none => []) ++ rosterNamesWritesD ρ regF mid team rest

def rosterWritesD (ρ : Option String → Option Nat)
    (regF : String → Option String) (mid : String) :
    List (String × List String) → List ((String × Nat) × MPRow)
  | [] => []
  | t :: rest =>
    rosterNamesWritesD ρ regF mid t.1 t.2 ++ rosterWritesD ρ regF mid rest

/-! ## Monotonicity of the walk on the player table -/

theorem processDelivery_players (dOk : Nat → Bool)
    (regF : String → Option String) (mid : String) (iidx : Nat)
    (batting bowling : Option String) (over_num : Int) (ball_idx : Nat)
    (d : DeliveryData) (c : InnCounters) (seq : Nat) (w : WalkState) :
    (processDelivery dOk regF mid iidx batting bowling over_num ball_idx
        d c seq w).2.2.players
      = (wicketExtract regF
          (get_or_create_player true true
            (get_or_create_player true true
              (get_or_create_player true true w.players d.batter
                (d.batter.bind regF)).2
              d.non_striker (d.non_striker.bind regF)).2
            d.bowler (d.bowler.bind regF)).2
          d.wickets).2.2.2.2.2 := by
  simp only [processDelivery]
  split <;> rfl

theorem processDelivery_pidsLe (dOk : Nat → Bool)
    (regF : String → Option String) (mid : String) (iidx : Nat)
    (batting bowling : Option String) (over_num : Int) (ball_idx : Nat)
    (d : DeliveryData) (c : InnCounters) (seq : Nat) (w : WalkState) :
    pidsLe w.players
      (processDelivery dOk regF mid iidx batting bowling over_num ball_idx
        d c seq w).2.2.players := by
  rw [processDelivery_players]
  exact pidsLe_trans (goc_pidsLe _ _ _ _ _)
    (pidsLe_trans (goc_pidsLe _ _ _ _ _)
      (pidsLe_trans (goc_pidsLe _ _ _ _ _) (wicketExtract_pidsLe _ _ _)))

theorem processDeliveries_pidsLe (dOk : Nat → Bool)
    (regF : String → Option String) (mid : String) (iidx : Nat)
    (batting bowling : Option String) (over_num : Int) :
    ∀ (ds : List DeliveryData) (ball_idx : Nat) (c : InnCounters)
      (seq : Nat) (w : WalkState),
      pidsLe w.players
        (processDeliveries dOk regF mid iidx batting bowling over_num
          ball_idx ds c seq w).2.2.players
  | [], _, _, _, _ => pidsLe_refl _
  | d :: ds, ball_idx, c, seq, w =>
    pidsLe_trans
      (processDelivery_pidsLe dOk regF mid iidx batting bowling over_num
        ball_idx d c seq w)
      (processDeliveries_pidsLe dOk regF mid iidx batting bowling over_num
        ds (ball_idx + 1) _ _ _)

theorem processOvers_pidsLe (dOk : Nat → Bool)
    (regF : String → Option String) (mid : String) (iidx : Nat)
    (batting bowling : Option String) :
    ∀ (ovs : List OverData) (c : InnCounters) (seq : Nat) (w : WalkState),
      pidsLe w.players
        (processOvers dOk regF mid iidx batting bowling ovs c seq
          w).2.2.players
  | [], _, _, _ => pidsLe_refl _
  | ov :: ovs, c, seq, w =>
    pidsLe_trans
      (processDeliveries_pidsLe dOk regF mid iidx batting bowling ov.over
        ov.deliveries 1 _ seq w)
      (processOvers_pidsLe dOk regF mid iidx batting bowling ovs _ _ _)

theorem processInningsList_pidsLe (dOk : Nat → Bool)
    (regF : String → Option String) (mid : String)
    (t1 t2 : Option String) :
    ∀ (iidx : Nat) (inns : List InningsData) (w : WalkState),
      pidsLe w.players
        (processInningsList dOk regF mid t1 t2 iidx inns w).2.players
  | _, [], _ => pidsLe_refl _
  | iidx, inn :: rest, w =>
    pidsLe_trans
      (processOvers_pidsLe dOk regF mid iidx _ _ inn.overs _ 1 w)
      (processInningsList_pidsLe dOk regF mid t1 t2 (iidx + 1) rest _)

theorem processRosterNames_pidsLe (regF : String → Option String)
    (mid team : String) :
    ∀ (names : List String)
      (s : PlayersState × (String × Nat → Option MPRow)),
      pidsLe s.1 (processRosterNames regF mid team names s).1
  | [], _ => pidsLe_refl _
  | nm :: rest, (P, mp) => by
    simp only [processRosterNames]
    exact pidsLe_trans (goc_pidsLe true true P (some nm) (regF nm))
      (processRosterNames_pidsLe regF mid team rest ⟨_, _⟩)

theorem processRoster_pidsLe (regF : String → Option String) (mid : String) :
    ∀ (roster : List (String × List String))
      (s : PlayersState × (String × Nat → Option MPRow)),
      pidsLe s.1 (processRoster regF mid roster s).1
  | [], _ => pidsLe_refl _
  | t :: rest, s => by
    simp only [processRoster]
    exact pidsLe_trans (processRosterNames_pidsLe regF mid t.1 t.2 s)
      (processRoster_pidsLe regF mid rest _)

/-- The opportunistic link is an insert-ignore of the denoted write. -/
theorem ignoreLink_as_ignores (mid : String)
    (mp : String × Nat → Option MPRow) (pid? : Option Nat)
    (n team : Option String) :
    ignoreLink mid mp pid? n team
      = applyIgnores (mkIgnoreD pid? mid n team) mp := by
  simp only [ignoreLink, mkIgnoreD]
  by_cases hg : truthyNat pid? && truthyStr n
  · simp only [hg, if_true]
    rcases pid? with _ | p
    · simp [truthyNat] at hg
    · rcases hm : mp (mid, p) with _ | v <;> simp [applyIgnores, hm]
  · simp [hg, applyIgnores]

/-- Characterization of one all-successful delivery step against the
resolution function of any later player state. -/
theorem processDelivery_chr (regF : String → Option String) (mid : String)
    (iidx : Nat) (batting bowling : Option String) (over_num : Int)
    (ball_idx : Nat) (d : DeliveryData) (c : InnCounters) (seq : Nat)
    (w : WalkState) (Q : PlayersState)
    (hQ : pidsLe (processDelivery (fun _ => true) regF mid iidx batting bowling over_num ball_idx d c seq w).2.2.players Q) :
    (processDelivery (fun _ => true) regF mid iidx batting bowling over_num ball_idx d c seq w).1 = stepCounters d c ∧
    (processDelivery (fun _ => true) regF mid iidx batting bowling over_num ball_idx d c seq w).2.1 = seq + 1 ∧
    (processDelivery (fun _ => true) regF mid iidx batting bowling over_num ball_idx d c seq w).2.2.rows
      = w.rows ++ [rowOfD (resolveName Q) mid iidx over_num ball_idx seq d] ∧
    (processDelivery (fun _ => true) regF mid iidx batting bowling over_num ball_idx d c seq w).2.2.mp
      = applyIgnores
          (ignoresOfDeliveryD (resolveName Q) mid batting bowling d) w.mp := by
  rw [processDelivery_players] at hQ
  have h3Q : pidsLe (get_or_create_player true true (get_or_create_player true true (get_or_create_player true true w.players d.batter (d.batter.bind regF)).2 d.non_striker (d.non_striker.bind regF)).2 d.bowler (d.bowler.bind regF)).2 Q :=
    pidsLe_trans (wicketExtract_pidsLe regF (get_or_create_player true true (get_or_create_player true true (get_or_create_player true true w.players d.batter (d.batter.bind regF)).2 d.non_striker (d.non_striker.bind regF)).2 d.bowler (d.bowler.bind regF)).2 d.wickets) hQ
  have h2Q : pidsLe (get_or_create_player true true (get_or_create_player true true w.players d.batter (d.batter.bind regF)).2 d.non_striker (d.non_striker.bind regF)).2 Q :=
    pidsLe_trans (goc_pidsLe true true (get_or_create_player true true (get_or_create_player true true w.players d.batter (d.batter.bind regF)).2 d.non_striker (d.non_striker.bind regF)).2 d.bowler (d.bowler.bind regF)) h3Q
  have h1Q : pidsLe (get_or_create_player true true w.players d.batter (d.batter.bind regF)).2 Q :=
    pidsLe_trans
      (goc_pidsLe true true (get_or_create_player true true w.players d.batter (d.batter.bind regF)).2 d.non_striker (d.non_striker.bind regF)) h2Q
  have e1 : (get_or_create_player true true w.players d.batter (d.batter.bind regF)).1 = resolveName Q d.batter :=
    goc_ret_rho w.players d.batter (d.batter.bind regF) Q h1Q
  have e2 : (get_or_create_player true true (get_or_create_player true true w.players d.batter (d.batter.bind regF)).2 d.non_striker (d.non_striker.bind regF)).1 = resolveName Q d.non_striker :=
    goc_ret_rho (get_or_create_player true true w.players d.batter (d.batter.bind regF)).2 d.non_striker (d.non_striker.bind regF) Q h2Q
  have e3 : (get_or_create_player true true (get_or_create_player true true (get_or_create_player true true w.players d.batter (d.batter.bind regF)).2 d.non_striker (d.non_striker.bind regF)).2 d.bowler (d.bowler.bind regF)).1 = resolveName Q d.bowler :=
    goc_ret_rho (get_or_create_player true true (get_or_create_player true true w.players d.batter (d.batter.bind regF)).2 d.non_striker (d.non_striker.bind regF)).2 d.bowler (d.bowler.bind regF) Q h3Q
  have hmp : (processDelivery (fun _ => true) regF mid iidx batting bowling over_num ball_idx d c seq w).2.2.mp
      = ignoreLink mid
          (ignoreLink mid (ignoreLink mid w.mp (get_or_create_player true true w.players d.batter (d.batter.bind regF)).1 d.batter batting)
            (get_or_create_player true true (get_or_create_player true true w.players d.batter (d.batter.bind regF)).2 d.non_striker (d.non_striker.bind regF)).1 d.non_striker batting)
          (get_or_create_player true true (get_or_create_player true true (get_or_create_player true true w.players d.batter (d.batter.bind regF)).2 d.non_striker (d.non_striker.bind regF)).2 d.bowler (d.bowler.bind regF)).1 d.bowler bowling := by
    simp only [processDelivery]
    split <;> rfl
  refine ⟨rfl, rfl, ?_, ?_⟩
  · rcases hw : d.wickets with _ | ⟨wk, rest⟩
    · simp [processDelivery, rowOfD, hw, wicketExtract, e1, e2, e3]
    · rcases hf : wk.fielders with _ | ⟨fi, frest⟩
      · rw [hw] at hQ
        simp only [wicketExtract, hf] at hQ
        have e4 : (get_or_create_player true true (get_or_create_player true true (get_or_create_player true true (get_or_create_player true true w.players d.batter (d.batter.bind regF)).2 d.non_striker (d.non_striker.bind regF)).2 d.bowler (d.bowler.bind regF)).2 wk.player_out
            (wk.player_out.bind regF)).1 = resolveName Q wk.player_out :=
          goc_ret_rho (get_or_create_player true true (get_or_create_player true true (get_or_create_player true true w.players d.batter (d.batter.bind regF)).2 d.non_striker (d.non_striker.bind regF)).2 d.bowler (d.bowler.bind regF)).2 wk.player_out (wk.player_out.bind regF) Q hQ
        simp [processDelivery, rowOfD, hw, hf, wicketExtract, e1, e2, e3, e4]
      · rw [hw] at hQ
        simp only [wicketExtract, hf] at hQ
        have h5Q : pidsLe (get_or_create_player true true
            (get_or_create_player true true (get_or_create_player true true (get_or_create_player true true (get_or_create_player true true w.players d.batter (d.batter.bind regF)).2 d.non_striker (d.non_striker.bind regF)).2 d.bowler (d.bowler.bind regF)).2 wk.player_out
              (wk.player_out.bind regF)).2 fi.name (fi.name.bind regF)).2 Q := hQ
        have h4Q : pidsLe (get_or_create_player true true (get_or_create_player true true (get_or_create_player true true (get_or_create_player true true w.players d.batter (d.batter.bind regF)).2 d.non_striker (d.non_striker.bind regF)).2 d.bowler (d.bowler.bind regF)).2 wk.player_out
            (wk.player_out.bind regF)).2 Q :=
          pidsLe_trans (goc_pidsLe true true _ fi.name (fi.name.bind regF)) h5Q
        have e4 : (get_or_create_player true true (get_or_create_player true true (get_or_create_player true true (get_or_create_player true true w.players d.batter (d.batter.bind regF)).2 d.non_striker (d.non_striker.bind regF)).2 d.bowler (d.bowler.bind regF)).2 wk.player_out
            (wk.player_out.bind regF)).1 = resolveName Q wk.player_out :=
          goc_ret_rho (get_or_create_player true true (get_or_create_player true true (get_or_create_player true true w.players d.batter (d.batter.bind regF)).2 d.non_striker (d.non_striker.bind regF)).2 d.bowler (d.bowler.bind regF)).2 wk.player_out (wk.player_out.bind regF) Q h4Q
        have e5 : (get_or_create_player true true
            (get_or_create_player true true (get_or_create_player true true (get_or_create_player true true (get_or_create_player true true w.players d.batter (d.batter.bind regF)).2 d.non_striker (d.non_striker.bind regF)).2 d.bowler (d.bowler.bind regF)).2 wk.player_out
              (wk.player_out.bind regF)).2 fi.name (fi.name.bind regF)).1
            = resolveName Q fi.name :=
          goc_ret_rho _ fi.name (fi.name.bind regF) Q h5Q
        simp [processDelivery, rowOfD, hw, hf, wicketExtract, e1, e2, e3, e4, e5]
  · rw [hmp, ignoreLink_as_ignores, ignoreLink_as_ignores, ignoreLink_as_ignores,
      e1, e2, e3]
    simp [ignoresOfDeliveryD, applyIgnores_append]

/-- Characterization of an all-successful delivery list. -/
theorem processDeliveries_chr (regF : String → Option String) (mid : String)
    (iidx : Nat) (batting bowling : Option String) (over_num : Int) :
    ∀ (ds : List DeliveryData) (ball_idx : Nat) (c : InnCounters) (seq : Nat)
      (w : WalkState) (Q : PlayersState),
      pidsLe (processDeliveries (fun _ => true) regF mid iidx batting bowling
          over_num ball_idx ds c seq w).2.2.players Q →
      (processDeliveries (fun _ => true) regF mid iidx batting bowling
          over_num ball_idx ds c seq w).1 = countersOfDeliveriesD ds c ∧
      (processDeliveries (fun _ => true) regF mid iidx batting bowling
          over_num ball_idx ds c seq w).2.1 = seq + ds.length ∧
      (processDeliveries (fun _ => true) regF mid iidx batting bowling
          over_num ball_idx ds c seq w).2.2.rows
        = w.rows ++ rowsOfDeliveriesD (resolveName Q) mid iidx over_num
            ball_idx seq ds ∧
      (processDeliveries (fun _ => true) regF mid iidx batting bowling
          over_num ball_idx ds c seq w).2.2.mp
        = applyIgnores (ignoresOfDeliveriesD (resolveName Q) mid batting
            bowling ds) w.mp
  | [], ball_idx, c, seq, w, Q, hQ => by
    simp [processDeliveries, countersOfDeliveriesD, rowsOfDeliveriesD,
      ignoresOfDeliveriesD, applyIgnores]
  | d :: ds, ball_idx, c, seq, w, Q, hQ => by
    simp only [processDeliveries] at hQ
    have hQh : pidsLe (processDelivery (fun _ => true) regF mid iidx batting bowling over_num ball_idx d c seq w).2.2.players Q :=
      pidsLe_trans
        (processDeliveries_pidsLe (fun _ => true) regF mid iidx batting
          bowling over_num ds (ball_idx + 1) (processDelivery (fun _ => true) regF mid iidx batting bowling over_num ball_idx d c seq w).1 (processDelivery (fun _ => true) regF mid iidx batting bowling over_num ball_idx d c seq w).2.1 (processDelivery (fun _ => true) regF mid iidx batting bowling over_num ball_idx d c seq w).2.2) hQ
    obtain ⟨hc, hs, hr, hm⟩ :=
      processDelivery_chr regF mid iidx batting bowling over_num ball_idx
        d c seq w Q hQh
    obtain ⟨ihc, ihs, ihr, ihm⟩ :=
      processDeliveries_chr regF mid iidx batting bowling over_num ds
        (ball_idx + 1) (processDelivery (fun _ => true) regF mid iidx batting bowling over_num ball_idx d c seq w).1 (processDelivery (fun _ => true) regF mid iidx batting bowling over_num ball_idx d c seq w).2.1 (processDelivery (fun _ => true) regF mid iidx batting bowling over_num ball_idx d c seq w).2.2 Q hQ
    refine ⟨?_, ?_, ?_, ?_⟩
    · simp only [processDeliveries, countersOfDeliveriesD]
      rw [ihc, hc]
    · simp only [processDeliveries, List.length_cons]
      rw [ihs, hs]
      omega
    · simp only [processDeliveries, rowsOfDeliveriesD]
      rw [ihr, hr, hs]
      simp
    · simp only [processDeliveries, ignoresOfDeliveriesD]
      rw [ihm, hm, applyIgnores_append]

/-- Characterization of an all-successful over list. -/
theorem processOvers_chr (regF : String → Option String) (mid : String)
    (iidx : Nat) (batting bowling : Option String) :
    ∀ (ovs : List OverData) (c : InnCounters) (seq : Nat) (w : WalkState)
      (Q : PlayersState),
      pidsLe (processOvers (fun _ => true) regF mid iidx batting bowling
          ovs c seq w).2.2.players Q →
      (processOvers (fun _ => true) regF mid iidx batting bowling ovs c seq
          w).1 = countersOfOversD ovs c ∧
      (processOvers (fun _ => true) regF mid iidx batting bowling ovs c seq
          w).2.2.rows
        = w.rows ++ rowsOfOversD (resolveName Q) mid iidx seq ovs ∧
      (processOvers (fun _ => true) regF mid iidx batting bowling ovs c seq
          w).2.2.mp
        = applyIgnores (ignoresOfOversD (resolveName Q) mid batting bowling
            ovs) w.mp
  | [], c, seq, w, Q, hQ => by
    simp [processOvers, countersOfOversD, rowsOfOversD, ignoresOfOversD,
      applyIgnores]
  | ov :: ovs, c, seq, w, Q, hQ => by
    simp only [processOvers] at hQ
    have hQh : pidsLe (processDeliveries (fun _ => true) regF mid iidx
        batting bowling ov.over 1 ov.deliveries
        { c with max_over := max c.max_over ov.over } seq w).2.2.players Q :=
      pidsLe_trans
        (processOvers_pidsLe (fun _ => true) regF mid iidx batting bowling
          ovs _ _ _) hQ
    obtain ⟨hc, hs, hr, hm⟩ :=
      processDeliveries_chr regF mid iidx batting bowling ov.over
        ov.deliveries 1 { c with max_over := max c.max_over ov.over } seq w
        Q hQh
    obtain ⟨ihc, ihr, ihm⟩ :=
      processOvers_chr regF mid iidx batting bowling ovs _ _ _ Q hQ
    refine ⟨?_, ?_, ?_⟩
    · simp only [processOvers, countersOfOversD]
      rw [ihc, hc]
    · simp only [processOvers, rowsOfOversD]
      rw [ihr, hr, hs]
      simp
    · simp only [processOvers, ignoresOfOversD]
      rw [ihm, hm, applyIgnores_append]

/-- Characterization of one all-successful innings. -/
theorem processInnings_chr (regF : String → Option String) (mid : String)
    (t1 t2 : Option String) (iidx : Nat) (inn : InningsData) (w : WalkState)
    (Q : PlayersState)
    (hQ : pidsLe (processInnings (fun _ => true) regF mid t1 t2 iidx inn
        w).2.players Q) :
    (processInnings (fun _ => true) regF mid t1 t2 iidx inn w).1
      = aggD t1 t2 iidx inn ∧
    (processInnings (fun _ => true) regF mid t1 t2 iidx inn w).2.rows
      = w.rows ++ rowsOfOversD (resolveName Q) mid iidx 1 inn.overs ∧
    (processInnings (fun _ => true) regF mid t1 t2 iidx inn w).2.mp
      = applyIgnores (ignoresOfOversD (resolveName Q) mid
          (battingBowling t1 t2 iidx inn.team).1
          (battingBowling t1 t2 iidx inn.team).2 inn.overs) w.mp := by
  simp only [processInnings] at hQ ⊢
  obtain ⟨hc, hr, hm⟩ :=
    processOvers_chr regF mid iidx (battingBowling t1 t2 iidx inn.team).1
      (battingBowling t1 t2 iidx inn.team).2 inn.overs
      { total_runs := 0, total_balls := 0, wickets := 0, max_over := 0 } 1 w
      Q hQ
  exact ⟨by rw [aggD, hc], hr, hm⟩

/-- Characterization of an all-successful innings list. -/
theorem processInningsList_chr (regF : String → Option String) (mid : String)
    (t1 t2 : Option String) :
    ∀ (iidx : Nat) (inns : List InningsData) (w : WalkState)
      (Q : PlayersState),
      pidsLe (processInningsList (fun _ => true) regF mid t1 t2 iidx inns
          w).2.players Q →
      (processInningsList (fun _ => true) regF mid t1 t2 iidx inns w).1
        = aggsD t1 t2 iidx inns ∧
      (processInningsList (fun _ => true) regF mid t1 t2 iidx inns w).2.rows
        = w.rows ++ rowsOfInningsListD (resolveName Q) mid t1 t2 iidx inns ∧
      (processInningsList (fun _ => true) regF mid t1 t2 iidx inns w).2.mp
        = applyIgnores (ignoresOfInningsListD (resolveName Q) mid t1 t2 iidx
            inns) w.mp
  | iidx, [], w, Q, hQ => by
    simp [processInningsList, aggsD, rowsOfInningsListD,
      ignoresOfInningsListD, applyIgnores]
  | iidx, inn :: rest, w, Q, hQ => by
    simp only [processInningsList] at hQ
    have hQh : pidsLe (processInnings (fun _ => true) regF mid t1 t2 iidx inn
        w).2.players Q :=
      pidsLe_trans
        (processInningsList_pidsLe (fun _ => true) regF mid t1 t2 (iidx + 1)
          rest _) hQ
    obtain ⟨ha, hr, hm⟩ :=
      processInnings_chr regF mid t1 t2 iidx inn w Q hQh
    obtain ⟨iha, ihr, ihm⟩ :=
      processInningsList_chr regF mid t1 t2 (iidx + 1) rest _ Q hQ
    refine ⟨?_, ?_, ?_⟩
    · simp only [processInningsList, aggsD]
      rw [iha, ha]
    · simp only [processInningsList, rowsOfInningsListD]
      rw [ihr, hr]
      simp
    · simp only [processInningsList, ignoresOfInningsListD]
      rw [ihm, hm, applyIgnores_append]

/-- Characterization of the roster loop over one team's name list. -/
theorem processRosterNames_chr (regF : String → Option String)
    (mid team : String) :
    ∀ (names : List String) (P : PlayersState)
      (mp : String × Nat → Option MPRow) (Q : PlayersState),
      pidsLe (processRosterNames regF mid team names (P, mp)).1 Q →
      (processRosterNames regF mid team names (P, mp)).2
        = applyWrites (rosterNamesWritesD (resolveName Q) regF mid team names)
            mp
  | [], P, mp, Q, hQ => rfl
  | nm :: rest, P, mp, Q, hQ => by
    simp only [processRosterNames] at hQ ⊢
    have hgQ : pidsLe (get_or_create_player true true P (some nm) (regF nm)).2 Q :=
      pidsLe_trans (processRosterNames_pidsLe regF mid team rest ⟨_, _⟩) hQ
    have e : (get_or_create_player true true P (some nm) (regF nm)).1 = resolveName Q (some nm) :=
      goc_ret_rho P (some nm) (regF nm) Q hgQ
    have ih :=
      processRosterNames_chr regF mid team rest (get_or_create_player true true P (some nm) (regF nm)).2
        (match (get_or_create_player true true P (some nm) (regF nm)).1 with
         | some p =>
           if p ≠ 0 then upd mp (mid, p) { team := some team, registry_name := regF nm }
           else mp
         | none => mp) Q hQ
    rw [ih]
    simp only [rosterNamesWritesD]
    rw [applyWrites_append]
    rw [e]
    rcases hρ : resolveName Q (some nm) with _ | p
    · rfl
    · by_cases hp : p = 0 <;> simp [hp, applyWrites]

/-- Characterization of the full roster loop. -/
theorem processRoster_chr (regF : String → Option String) (mid : String) :
    ∀ (roster : List (String × List String)) (P : PlayersState)
      (mp : String × Nat → Option MPRow) (Q : PlayersState),
      pidsLe (processRoster regF mid roster (P, mp)).1 Q →
      (processRoster regF mid roster (P, mp)).2
        = applyWrites (rosterWritesD (resolveName Q) regF mid roster) mp
  | [], P, mp, Q, hQ => rfl
  | t :: rest, P, mp, Q, hQ => by
    simp only [processRoster] at hQ ⊢
    have hsQ : pidsLe (processRosterNames regF mid t.1 t.2 (P, mp)).1 Q :=
      pidsLe_trans (processRoster_pidsLe regF mid rest _) hQ
    have hh :=
      processRosterNames_chr regF mid t.1 t.2 P mp Q hsQ
    have ih :=
      processRoster_chr regF mid rest
        (processRosterNames regF mid t.1 t.2 (P, mp)).1
        (processRosterNames regF mid t.1 t.2 (P, mp)).2 Q hQ
    rw [ih, hh]
    simp only [rosterWritesD]
    rw [applyWrites_append]

theorem SatKeys_mono {P Q : PlayersState} (h : pidsLe P Q)
    {ns : List (Option String)} : SatKeys P ns → SatKeys Q ns :=
  fun hs n hn key hk => pidsLe_isSome h (hs n hn key hk)

/-- Presence of one name's key after its own successful call, carried to
any later state. -/
theorem presence_through {P Q : PlayersState} (n r : Option String)
    (h : pidsLe (get_or_create_player true true P n r).2 Q) :
    ∀ key, keyOf n = some key → (pidAt Q key).isSome :=
  fun key hk => pidsLe_isSome h (goc_presence P n r key hk)

/-- After one delivery step, every name mentioned by the delivery is
present. -/
theorem processDelivery_sat (dOk : Nat → Bool)
    (regF : String → Option String) (mid : String) (iidx : Nat)
    (batting bowling : Option String) (over_num : Int) (ball_idx : Nat)
    (d : DeliveryData) (c : InnCounters) (seq : Nat) (w : WalkState) :
    SatKeys (processDelivery dOk regF mid iidx batting bowling over_num
        ball_idx d c seq w).2.2.players (namesOfDelivery d) := by
  intro n hn key hk
  rw [processDelivery_players]
  have l2 : pidsLe (get_or_create_player true true w.players d.batter (d.batter.bind regF)).2
      (wicketExtract regF (get_or_create_player true true (get_or_create_player true true (get_or_create_player true true w.players d.batter (d.batter.bind regF)).2 d.non_striker (d.non_striker.bind regF)).2 d.bowler (d.bowler.bind regF)).2 d.wickets).2.2.2.2.2 :=
    pidsLe_trans (goc_pidsLe true true _ d.non_striker (d.non_striker.bind regF))
      (pidsLe_trans (goc_pidsLe true true _ d.bowler (d.bowler.bind regF))
        (wicketExtract_pidsLe regF _ d.wickets))
  have l3 : pidsLe (get_or_create_player true true (get_or_create_player true true w.players d.batter (d.batter.bind regF)).2 d.non_striker (d.non_striker.bind regF)).2
      (wicketExtract regF (get_or_create_player true true (get_or_create_player true true (get_or_create_player true true w.players d.batter (d.batter.bind regF)).2 d.non_striker (d.non_striker.bind regF)).2 d.bowler (d.bowler.bind regF)).2 d.wickets).2.2.2.2.2 :=
    pidsLe_trans (goc_pidsLe true true _ d.bowler (d.bowler.bind regF))
      (wicketExtract_pidsLe regF _ d.wickets)
  have l4 : pidsLe (get_or_create_player true true (get_or_create_player true true (get_or_create_player true true w.players d.batter (d.batter.bind regF)).2 d.non_striker (d.non_striker.bind regF)).2 d.bowler (d.bowler.bind regF)).2
      (wicketExtract regF (get_or_create_player true true (get_or_create_player true true (get_or_create_player true true w.players d.batter (d.batter.bind regF)).2 d.non_striker (d.non_striker.bind regF)).2 d.bowler (d.bowler.bind regF)).2 d.wickets).2.2.2.2.2 :=
    wicketExtract_pidsLe regF _ d.wickets
  rcases hw : d.wickets with _ | ⟨wk, rest⟩
  · simp [namesOfDelivery, hw] at hn
    rcases hn with h | h | h
    · subst h
      exact presence_through _ _ (by rw [hw] at l2; exact l2) key hk
    · subst h
      exact presence_through _ _ (by rw [hw] at l3; exact l3) key hk
    · subst h
      exact presence_through _ _ (by rw [hw] at l4; exact l4) key hk
  · rcases hf : wk.fielders with _ | ⟨fi, frest⟩
    · simp [namesOfDelivery, hw, hf] at hn
      simp only [wicketExtract, hf]
      rcases hn with h | h | h | h
      · subst h
        rw [hw] at l2
        simp only [wicketExtract, hf] at l2
        exact presence_through _ _ l2 key hk
      · subst h
        rw [hw] at l3
        simp only [wicketExtract, hf] at l3
        exact presence_through _ _ l3 key hk
      · subst h
        rw [hw] at l4
        simp only [wicketExtract, hf] at l4
        exact presence_through _ _ l4 key hk
      · subst h
        exact presence_through _ _ (pidsLe_refl _) key hk
    · simp [namesOfDelivery, hw, hf] at hn
      simp only [wicketExtract, hf]
      have l5 : pidsLe (get_or_create_player true true (get_or_create_player true true (get_or_create_player true true (get_or_create_player true true w.players d.batter (d.batter.bind regF)).2 d.non_striker (d.non_striker.bind regF)).2 d.bowler (d.bowler.bind regF)).2 wk.player_out
          (wk.player_out.bind regF)).2
          (get_or_create_player true true
            (get_or_create_player true true (get_or_create_player true true (get_or_create_player true true (get_or_create_player true true w.players d.batter (d.batter.bind regF)).2 d.non_striker (d.non_striker.bind regF)).2 d.bowler (d.bowler.bind regF)).2 wk.player_out
              (wk.player_out.bind regF)).2 fi.name (fi.name.bind regF)).2 :=
        goc_pidsLe true true _ fi.name (fi.name.bind regF)
      rcases hn with h | h | h | h | h
      · subst h
        rw [hw] at l2
        simp only [wicketExtract, hf] at l2
        exact presence_through _ _ l2 key hk
      · subst h
        rw [hw] at l3
        simp only [wicketExtract, hf] at l3
        exact presence_through _ _ l3 key hk
      · subst h
        rw [hw] at l4
        simp only [wicketExtract, hf] at l4
        exact presence_through _ _ l4 key hk
      · subst h
        exact presence_through _ _ l5 key hk
      · subst h
        exact presence_through _ _ (pidsLe_refl _) key hk

theorem processDeliveries_sat (dOk : Nat → Bool)
    (regF : String → Option String) (mid : String) (iidx : Nat)
    (batting bowling : Option String) (over_num : Int) :
    ∀ (ds : List DeliveryData) (ball_idx : Nat) (c : InnCounters)
      (seq : Nat) (w : WalkState),
      SatKeys (processDeliveries dOk regF mid iidx batting bowling over_num
          ball_idx ds c seq w).2.2.players (namesOfDeliveries ds)
  | [], _, _, _, _ => by
    intro n hn
    simp [namesOfDeliveries] at hn
  | d :: ds, ball_idx, c, seq, w => by
    rw [show namesOfDeliveries (d :: ds)
        = namesOfDelivery d ++ namesOfDeliveries ds from rfl, SatKeys_append]
    simp only [processDeliveries]
    constructor
    · exact SatKeys_mono
        (processDeliveries_pidsLe dOk regF mid iidx batting bowling over_num
          ds (ball_idx + 1) _ _ _)
        (processDelivery_sat dOk regF mid iidx batting bowling over_num
          ball_idx d c seq w)
    · exact processDeliveries_sat dOk regF mid iidx batting bowling over_num
        ds (ball_idx + 1) _ _ _

theorem processOvers_sat (dOk : Nat → Bool)
    (regF : String → Option String) (mid : String) (iidx : Nat)
    (batting bowling : Option String) :
    ∀ (ovs : List OverData) (c : InnCounters) (seq : Nat) (w : WalkState),
      SatKeys (processOvers dOk regF mid iidx batting bowling ovs c seq
          w).2.2.players (namesOfOvers ovs)
  | [], _, _, _ => by
    intro n hn
    simp [namesOfOvers] at hn
  | ov :: ovs, c, seq, w => by
    rw [show namesOfOvers (ov :: ovs)
        = namesOfDeliveries ov.deliveries ++ namesOfOvers ovs from rfl,
      SatKeys_append]
    simp only [processOvers]
    constructor
    · exact SatKeys_mono
        (processOvers_pidsLe dOk regF mid iidx batting bowling ovs _ _ _)
        (processDeliveries_sat dOk regF mid iidx batting bowling ov.over
          ov.deliveries 1 _ seq w)
    · exact processOvers_sat dOk regF mid iidx batting bowling ovs _ _ _

theorem processInningsList_sat (dOk : Nat → Bool)
    (regF : String → Option String) (mid : String) (t1 t2 : Option String) :
    ∀ (iidx : Nat) (inns : List InningsData) (w : WalkState),
      SatKeys (processInningsList dOk regF mid t1 t2 iidx inns w).2.players
        (namesOfInningsList inns)
  | _, [], _ => by
    intro n hn
    simp [namesOfInningsList] at hn
  | iidx, inn :: rest, w => by
    rw [show namesOfInningsList (inn :: rest)
        = namesOfOvers inn.overs ++ namesOfInningsList rest from rfl,
      SatKeys_append]
    simp only [processInningsList, processInnings]
    constructor
    · exact SatKeys_mono
        (processInningsList_pidsLe dOk regF mid t1 t2 (iidx + 1) rest _)
        (processOvers_sat dOk regF mid iidx _ _ inn.overs _ 1 w)
    · exact processInningsList_sat dOk regF mid t1 t2 (iidx + 1) rest _

theorem processRosterNames_sat (regF : String → Option String)
    (mid team : String) :
    ∀ (names : List String)
      (st : PlayersState × (String × Nat → Option MPRow)),
      SatKeys (processRosterNames regF mid team names st).1
        (namesOfRosterNames names)
  | [], _ => by
    intro n hn
    simp [namesOfRosterNames] at hn
  | nm :: rest, (P, mp) => by
    intro n hn key hk
    simp only [namesOfRosterNames, List.mem_cons] at hn
    simp only [processRosterNames]
    rcases hn with h | h
    · subst h
      exact presence_through _ _
        (processRosterNames_pidsLe regF mid team rest ⟨_, _⟩) key hk
    · exact processRosterNames_sat regF mid team rest ⟨_, _⟩ n h key hk

theorem processRoster_sat (regF : String → Option String) (mid : String) :
    ∀ (roster : List (String × List String))
      (st : PlayersState × (String × Nat → Option MPRow)),
      SatKeys (processRoster regF mid roster st).1 (namesOfRoster roster)
  | [], _ => by
    intro n hn
    simp [namesOfRoster] at hn
  | t :: rest, st => by
    rw [show namesOfRoster (t :: rest)
        = namesOfRosterNames t.2 ++ namesOfRoster rest from rfl,
      SatKeys_append]
    simp only [processRoster]
    constructor
    · exact SatKeys_mono (processRoster_pidsLe regF mid rest _)
        (processRosterNames_sat regF mid t.1 t.2 st)
    · exact processRoster_sat regF mid rest _

/-- On a state already containing every name of the delivery, the step
changes no player id. -/
theorem processDelivery_pid_preserved (dOk : Nat → Bool)
    (regF : String → Option String) (mid : String) (iidx : Nat)
    (batting bowling : Option String) (over_num : Int) (ball_idx : Nat)
    (d : DeliveryData) (c : InnCounters) (seq : Nat) (w : WalkState)
    (hs : SatKeys w.players (namesOfDelivery d)) :
    ∀ k, pidAt (processDelivery dOk regF mid iidx batting bowling over_num
        ball_idx d c seq w).2.2.players k = pidAt w.players k := by
  have mb : d.batter ∈ namesOfDelivery d := by simp [namesOfDelivery]
  have mn : d.non_striker ∈ namesOfDelivery d := by simp [namesOfDelivery]
  have mo : d.bowler ∈ namesOfDelivery d := by simp [namesOfDelivery]
  have e1 : ∀ k, pidAt (get_or_create_player true true w.players d.batter (d.batter.bind regF)).2 k = pidAt w.players k :=
    goc_pid_preserved w.players d.batter (d.batter.bind regF)
      (fun key hk => hs d.batter mb key hk)
  have hs1 : SatKeys (get_or_create_player true true w.players d.batter (d.batter.bind regF)).2 (namesOfDelivery d) := SatKeys_of_pidAt_eq e1 hs
  have e2 : ∀ k, pidAt (get_or_create_player true true (get_or_create_player true true w.players d.batter (d.batter.bind regF)).2 d.non_striker (d.non_striker.bind regF)).2 k = pidAt (get_or_create_player true true w.players d.batter (d.batter.bind regF)).2 k :=
    goc_pid_preserved _ d.non_striker (d.non_striker.bind regF)
      (fun key hk => hs1 d.non_striker mn key hk)
  have hs2 : SatKeys (get_or_create_player true true (get_or_create_player true true w.players d.batter (d.batter.bind regF)).2 d.non_striker (d.non_striker.bind regF)).2 (namesOfDelivery d) := SatKeys_of_pidAt_eq e2 hs1
  have e3 : ∀ k, pidAt (get_or_create_player true true (get_or_create_player true true (get_or_create_player true true w.players d.batter (d.batter.bind regF)).2 d.non_striker (d.non_striker.bind regF)).2 d.bowler (d.bowler.bind regF)).2 k = pidAt (get_or_create_player true true (get_or_create_player true true w.players d.batter (d.batter.bind regF)).2 d.non_striker (d.non_striker.bind regF)).2 k :=
    goc_pid_preserved _ d.bowler (d.bowler.bind regF)
      (fun key hk => hs2 d.bowler mo key hk)
  have hs3 : SatKeys (get_or_create_player true true (get_or_create_player true true (get_or_create_player true true w.players d.batter (d.batter.bind regF)).2 d.non_striker (d.non_striker.bind regF)).2 d.bowler (d.bowler.bind regF)).2 (namesOfDelivery d) := SatKeys_of_pidAt_eq e3 hs2
  intro k
  rw [processDelivery_players]
  rcases hw : d.wickets with _ | ⟨wk, rest⟩
  · simp only [wicketExtract]
    rw [e3, e2, e1]
  · have mw : wk.player_out ∈ namesOfDelivery d := by
      simp [namesOfDelivery, hw]
    have e4 : ∀ k, pidAt (get_or_create_player true true (get_or_create_player true true (get_or_create_player true true (get_or_create_player true true w.players d.batter (d.batter.bind regF)).2 d.non_striker (d.non_striker.bind regF)).2 d.bowler (d.bowler.bind regF)).2 wk.player_out (wk.player_out.bind regF)).2 k = pidAt (get_or_create_player true true (get_or_create_player true true (get_or_create_player true true w.players d.batter (d.batter.bind regF)).2 d.non_striker (d.non_striker.bind regF)).2 d.bowler (d.bowler.bind regF)).2 k :=
      goc_pid_preserved _ wk.player_out (wk.player_out.bind regF)
        (fun key hk => hs3 wk.player_out mw key hk)
    rcases hf : wk.fielders with _ | ⟨fi, frest⟩
    · simp only [wicketExtract, hf]
      rw [e4, e3, e2, e1]
    · have mf : fi.name ∈ namesOfDelivery d := by
        simp [namesOfDelivery, hw, hf]
      have hs4 : SatKeys (get_or_create_player true true (get_or_create_player true true (get_or_create_player true true (get_or_create_player true true w.players d.batter (d.batter.bind regF)).2 d.non_striker (d.non_striker.bind regF)).2 d.bowler (d.bowler.bind regF)).2 wk.player_out (wk.player_out.bind regF)).2 (namesOfDelivery d) :=
        SatKeys_of_pidAt_eq e4 hs3
      have e5 : ∀ k, pidAt (get_or_create_player true true (get_or_create_player true true (get_or_create_player true true (get_or_create_player true true (get_or_create_player true true w.players d.batter (d.batter.bind regF)).2 d.non_striker (d.non_striker.bind regF)).2 d.bowler (d.bowler.bind regF)).2 wk.player_out (wk.player_out.bind regF)).2 fi.name
          (fi.name.bind regF)).2 k = pidAt (get_or_create_player true true (get_or_create_player true true (get_or_create_player true true (get_or_create_player true true w.players d.batter (d.batter.bind regF)).2 d.non_striker (d.non_striker.bind regF)).2 d.bowler (d.bowler.bind regF)).2 wk.player_out (wk.player_out.bind regF)).2 k :=
        goc_pid_preserved _ fi.name (fi.name.bind regF)
          (fun key hk => hs4 fi.name mf key hk)
      simp only [wicketExtract, hf]
      rw [e5, e4, e3, e2, e1]

theorem processDeliveries_pid_preserved (dOk : Nat → Bool)
    (regF : String → Option String) (mid : String) (iidx : Nat)
    (batting bowling : Option String) (over_num : Int) :
    ∀ (ds : List DeliveryData) (ball_idx : Nat) (c : InnCounters)
      (seq : Nat) (w : WalkState),
      SatKeys w.players (namesOfDeliveries ds) →
      ∀ k, pidAt (processDeliveries dOk regF mid iidx batting bowling
          over_num ball_idx ds c seq w).2.2.players k = pidAt w.players k
  | [], _, _, _, _, _ => fun _ => rfl
  | d :: ds, ball_idx, c, seq, w, hs => by
    rw [show namesOfDeliveries (d :: ds)
        = namesOfDelivery d ++ namesOfDeliveries ds from rfl,
      SatKeys_append] at hs
    have e1 := processDelivery_pid_preserved dOk regF mid iidx batting
      bowling over_num ball_idx d c seq w hs.1
    have hs2 : SatKeys (processDelivery dOk regF mid iidx batting bowling
        over_num ball_idx d c seq w).2.2.players (namesOfDeliveries ds) :=
      SatKeys_of_pidAt_eq e1 hs.2
    have ih := processDeliveries_pid_preserved dOk regF mid iidx batting
      bowling over_num ds (ball_idx + 1) (processDelivery dOk regF mid iidx batting bowling over_num ball_idx d c seq w).1 (processDelivery dOk regF mid iidx batting bowling over_num ball_idx d c seq w).2.1 (processDelivery dOk regF mid iidx batting bowling over_num ball_idx d c seq w).2.2 hs2
    intro k
    simp only [processDeliveries]
    rw [ih k, e1 k]

theorem processOvers_pid_preserved (dOk : Nat → Bool)
    (regF : String → Option String) (mid : String) (iidx : Nat)
    (batting bowling : Option String) :
    ∀ (ovs : List OverData) (c : InnCounters) (seq : Nat) (w : WalkState),
      SatKeys w.players (namesOfOvers ovs) →
      ∀ k, pidAt (processOvers dOk regF mid iidx batting bowling ovs c seq
          w).2.2.players k = pidAt w.players k
  | [], _, _, _, _ => fun _ => rfl
  | ov :: ovs, c, seq, w, hs => by
    rw [show namesOfOvers (ov :: ovs)
        = namesOfDeliveries ov.deliveries ++ namesOfOvers ovs from rfl,
      SatKeys_append] at hs
    have e1 := processDeliveries_pid_preserved dOk regF mid iidx batting
      bowling ov.over ov.deliveries 1
      { c with max_over := max c.max_over ov.over } seq w hs.1
    have hs2 : SatKeys (processDeliveries dOk regF mid iidx batting bowling
        ov.over 1 ov.deliveries
        { c with max_over := max c.max_over ov.over } seq w).2.2.players
        (namesOfOvers ovs) :=
      SatKeys_of_pidAt_eq e1 hs.2
    have ih := processOvers_pid_preserved dOk regF mid iidx batting bowling
      ovs (processDeliveries dOk regF mid iidx batting bowling ov.over 1 ov.deliveries { c with max_over := max c.max_over ov.over } seq w).1 (processDeliveries dOk regF mid iidx batting bowling ov.over 1 ov.deliveries { c with max_over := max c.max_over ov.over } seq w).2.1 (processDeliveries dOk regF mid iidx batting bowling ov.over 1 ov.deliveries { c with max_over := max c.max_over ov.over } seq w).2.2 hs2
    intro k
    simp only [processOvers]
    rw [ih k, e1 k]

theorem processInningsList_pid_preserved (dOk : Nat → Bool)
    (regF : String → Option String) (mid : String) (t1 t2 : Option String) :
    ∀ (iidx : Nat) (inns : List InningsData) (w : WalkState),
      SatKeys w.players (namesOfInningsList inns) →
      ∀ k, pidAt (processInningsList dOk regF mid t1 t2 iidx inns
          w).2.players k = pidAt w.players k
  | _, [], _, _ => fun _ => rfl
  | iidx, inn :: rest, w, hs => by
    rw [show namesOfInningsList (inn :: rest)
        = namesOfOvers inn.overs ++ namesOfInningsList rest from rfl,
      SatKeys_append] at hs
    have e1 := processOvers_pid_preserved dOk regF mid iidx
      (battingBowling t1 t2 iidx inn.team).1
      (battingBowling t1 t2 iidx inn.team).2 inn.overs
      { total_runs := 0, total_balls := 0, wickets := 0, max_over := 0 } 1
      w hs.1
    have hs2 : SatKeys (processInnings dOk regF mid t1 t2 iidx inn
        w).2.players (namesOfInningsList rest) :=
      SatKeys_of_pidAt_eq e1 hs.2
    have ih := processInningsList_pid_preserved dOk regF mid t1 t2 (iidx + 1)
      rest (processInnings dOk regF mid t1 t2 iidx inn w).2 hs2
    intro k
    simp only [processInningsList]
    have e1h : pidAt (processInnings dOk regF mid t1 t2 iidx inn
        w).2.players k = pidAt w.players k := e1 k
    rw [ih k, e1h]

theorem processRosterNames_pid_preserved (regF : String → Option String)
    (mid team : String) :
    ∀ (names : List String) (P : PlayersState)
      (mp : String × Nat → Option MPRow),
      SatKeys P (namesOfRosterNames names) →
      ∀ k, pidAt (processRosterNames regF mid team names (P, mp)).1 k
        = pidAt P k
  | [], _, _, _ => fun _ => rfl
  | nm :: rest, P, mp, hs => by
    have mh : some nm ∈ namesOfRosterNames (nm :: rest) := by
      simp [namesOfRosterNames]
    have e1 : ∀ k, pidAt (get_or_create_player true true P (some nm)
        (regF nm)).2 k = pidAt P k :=
      goc_pid_preserved P (some nm) (regF nm)
        (fun key hk => hs (some nm) mh key hk)
    have hs2 : SatKeys (get_or_create_player true true P (some nm)
        (regF nm)).2 (namesOfRosterNames rest) :=
      SatKeys_of_pidAt_eq e1
        (fun n hn key hk => hs n (by simp [namesOfRosterNames, hn]) key hk)
    have ih := processRosterNames_pid_preserved regF mid team rest
      (get_or_create_player true true P (some nm) (regF nm)).2
      (match (get_or_create_player true true P (some nm) (regF nm)).1 with
        | some p =>
          if p ≠ 0 then upd mp (mid, p) { team := some team, registry_name := regF nm }
          else mp
        | none => mp) hs2
    intro k
    simp only [processRosterNames]
    rw [ih k, e1 k]

theorem processRoster_pid_preserved (regF : String → Option String)
    (mid : String) :
    ∀ (roster : List (String × List String)) (P : PlayersState)
      (mp : String × Nat → Option MPRow),
      SatKeys P (namesOfRoster roster) →
      ∀ k, pidAt (processRoster regF mid roster (P, mp)).1 k = pidAt P k
  | [], _, _, _ => fun _ => rfl
  | t :: rest, P, mp, hs => by
    rw [show namesOfRoster (t :: rest)
        = namesOfRosterNames t.2 ++ namesOfRoster rest from rfl,
      SatKeys_append] at hs
    have e1 := processRosterNames_pid_preserved regF mid t.1 t.2 P mp hs.1
    have hs2 : SatKeys (processRosterNames regF mid t.1 t.2 (P, mp)).1
        (namesOfRoster rest) :=
      SatKeys_of_pidAt_eq e1 hs.2
    have ih := processRoster_pid_preserved regF mid rest
      (processRosterNames regF mid t.1 t.2 (P, mp)).1
      (processRosterNames regF mid t.1 t.2 (P, mp)).2 hs2
    intro k
    simp only [processRoster]
    rw [ih k, e1 k]

/-- The table written by an all-successful aggregate loop. -/
theorem persistInnings_allT_tbl (mid : String) (bpo : Int) :
    ∀ (n : Nat) (aggs : List (Nat × InnAgg))
      (tbl : String × Nat → Option InningsRow),
      (persistInnings (fun _ => true) mid bpo n aggs tbl).2
        = if bpo = 0 then tbl
          else applyWrites
              (aggs.map (fun a => ((mid, a.1), inningsRowOf bpo a.2))) tbl
  | _, [], tbl => by split <;> rfl
  | n, a :: rest, tbl => by
    by_cases h : bpo = 0
    · simp [persistInnings, h]
    · simp only [persistInnings, h, if_false, if_true, List.map_cons,
        applyWrites]
      rw [persistInnings_allT_tbl mid bpo (n + 1) rest _]
      simp [h]

/-- The record produced by one all-successful ingestion, spelled out. -/
theorem ingestOnce_eq (strp : String → String → Option Nat) (f : MatchFile)
    (db : DB) :
    ingestOnce strp f db =
      { matches_tbl := upd db.matches_tbl f.match_id (matchRowOf strp f),
         players := (processInningsList (fun _ => true) f.info.registry f.match_id (f.info.teams.head?) (f.info.teams.get? 1) 1 f.innings { players := (processRoster f.info.registry f.match_id f.info.players (db.players, db.match_players)).1, mp := (processRoster f.info.registry f.match_id f.info.players (db.players, db.match_players)).2, rows := ([] : List DeliveryRow), total_deliveries := 0, delivery_errors := 0, attempt := 0 }).2.players,
         match_players := (processInningsList (fun _ => true) f.info.registry f.match_id (f.info.teams.head?) (f.info.teams.get? 1) 1 f.innings { players := (processRoster f.info.registry f.match_id f.info.players (db.players, db.match_players)).1, mp := (processRoster f.info.registry f.match_id f.info.players (db.players, db.match_players)).2, rows := ([] : List DeliveryRow), total_deliveries := 0, delivery_errors := 0, attempt := 0 }).2.mp,
         innings_tbl := (persistInnings (fun _ => true) f.match_id (bpoOf f) 0 (processInningsList (fun _ => true) f.info.registry f.match_id (f.info.teams.head?) (f.info.teams.get? 1) 1 f.innings { players := (processRoster f.info.registry f.match_id f.info.players (db.players, db.match_players)).1, mp := (processRoster f.info.registry f.match_id f.info.players (db.players, db.match_players)).2, rows := ([] : List DeliveryRow), total_deliveries := 0, delivery_errors := 0, attempt := 0 }).1 db.innings_tbl).2,
         officials := db.officials ++ officialRows f.match_id f.info.officials,
         deliveries := db.deliveries ++ (processInningsList (fun _ => true) f.info.registry f.match_id (f.info.teams.head?) (f.info.teams.get? 1) 1 f.innings { players := (processRoster f.info.registry f.match_id f.info.players (db.players, db.match_players)).1, mp := (processRoster f.info.registry f.match_id f.info.players (db.players, db.match_players)).2, rows := ([] : List DeliveryRow), total_deliveries := 0, delivery_errors := 0, attempt := 0 }).2.rows } := rfl

/-- Full characterization of one all-successful ingestion: the player
table grows monotonically and ends saturated for the file's names, and
every table write is the pure denotation of the file against the final
resolution function. -/
theorem ingest_chr (strp : String → String → Option Nat) (f : MatchFile)
    (db : DB) :
    pidsLe db.players (ingestOnce strp f db).players ∧
    SatKeys (ingestOnce strp f db).players (namesOfFile f) ∧
    (ingestOnce strp f db).matches_tbl
      = upd db.matches_tbl f.match_id (matchRowOf strp f) ∧
    (ingestOnce strp f db).match_players
      = applyIgnores
          (ignoresOfInningsListD (resolveName (ingestOnce strp f db).players)
            f.match_id (f.info.teams.head?) (f.info.teams.get? 1) 1 f.innings)
          (applyWrites
            (rosterWritesD (resolveName (ingestOnce strp f db).players)
              f.info.registry f.match_id f.info.players)
            db.match_players) ∧
    (ingestOnce strp f db).innings_tbl
      = (if bpoOf f = 0 then db.innings_tbl
         else applyWrites
             ((aggsD (f.info.teams.head?) (f.info.teams.get? 1) 1
                 f.innings).map
               (fun a => ((f.match_id, a.1), inningsRowOf (bpoOf f) a.2)))
             db.innings_tbl) ∧
    (ingestOnce strp f db).deliveries
      = db.deliveries ++
          rowsOfInningsListD (resolveName (ingestOnce strp f db).players)
            f.match_id (f.info.teams.head?) (f.info.teams.get? 1) 1
            f.innings := by
  have hP : (ingestOnce strp f db).players = (processInningsList (fun _ => true) f.info.registry f.match_id (f.info.teams.head?) (f.info.teams.get? 1) 1 f.innings { players := (processRoster f.info.registry f.match_id f.info.players (db.players, db.match_players)).1, mp := (processRoster f.info.registry f.match_id f.info.players (db.players, db.match_players)).2, rows := ([] : List DeliveryRow), total_deliveries := 0, delivery_errors := 0, attempt := 0 }).2.players := rfl
  have hRle : pidsLe db.players (processRoster f.info.registry f.match_id f.info.players (db.players, db.match_players)).1 :=
    processRoster_pidsLe f.info.registry f.match_id f.info.players
      (db.players, db.match_players)
  have hWle : pidsLe (processRoster f.info.registry f.match_id f.info.players (db.players, db.match_players)).1 (processInningsList (fun _ => true) f.info.registry f.match_id (f.info.teams.head?) (f.info.teams.get? 1) 1 f.innings { players := (processRoster f.info.registry f.match_id f.info.players (db.players, db.match_players)).1, mp := (processRoster f.info.registry f.match_id f.info.players (db.players, db.match_players)).2, rows := ([] : List DeliveryRow), total_deliveries := 0, delivery_errors := 0, attempt := 0 }).2.players :=
    processInningsList_pidsLe (fun _ => true) f.info.registry f.match_id
      (f.info.teams.head?) (f.info.teams.get? 1) 1 f.innings { players := (processRoster f.info.registry f.match_id f.info.players (db.players, db.match_players)).1, mp := (processRoster f.info.registry f.match_id f.info.players (db.players, db.match_players)).2, rows := ([] : List DeliveryRow), total_deliveries := 0, delivery_errors := 0, attempt := 0 }
  obtain ⟨hAggs, hRows, hMp⟩ :=
    processInningsList_chr f.info.registry f.match_id (f.info.teams.head?)
      (f.info.teams.get? 1) 1 f.innings { players := (processRoster f.info.registry f.match_id f.info.players (db.players, db.match_players)).1, mp := (processRoster f.info.registry f.match_id f.info.players (db.players, db.match_players)).2, rows := ([] : List DeliveryRow), total_deliveries := 0, delivery_errors := 0, attempt := 0 } (processInningsList (fun _ => true) f.info.registry f.match_id (f.info.teams.head?) (f.info.teams.get? 1) 1 f.innings { players := (processRoster f.info.registry f.match_id f.info.players (db.players, db.match_players)).1, mp := (processRoster f.info.registry f.match_id f.info.players (db.players, db.match_players)).2, rows := ([] : List DeliveryRow), total_deliveries := 0, delivery_errors := 0, attempt := 0 }).2.players (pidsLe_refl _)
  have hRmp : (processRoster f.info.registry f.match_id f.info.players (db.players, db.match_players)).2
      = applyWrites
          (rosterWritesD (resolveName (processInningsList (fun _ => true) f.info.registry f.match_id (f.info.teams.head?) (f.info.teams.get? 1) 1 f.innings { players := (processRoster f.info.registry f.match_id f.info.players (db.players, db.match_players)).1, mp := (processRoster f.info.registry f.match_id f.info.players (db.players, db.match_players)).2, rows := ([] : List DeliveryRow), total_deliveries := 0, delivery_errors := 0, attempt := 0 }).2.players) f.info.registry
            f.match_id f.info.players)
          db.match_players :=
    processRoster_chr f.info.registry f.match_id f.info.players db.players
      db.match_players (processInningsList (fun _ => true) f.info.registry f.match_id (f.info.teams.head?) (f.info.teams.get? 1) 1 f.innings { players := (processRoster f.info.registry f.match_id f.info.players (db.players, db.match_players)).1, mp := (processRoster f.info.registry f.match_id f.info.players (db.players, db.match_players)).2, rows := ([] : List DeliveryRow), total_deliveries := 0, delivery_errors := 0, attempt := 0 }).2.players hWle
  refine ⟨pidsLe_trans hRle hWle, ?_, rfl, ?_, ?_, ?_⟩
  · rw [show namesOfFile f
        = namesOfRoster f.info.players ++ namesOfInningsList f.innings
      from rfl, hP, SatKeys_append]
    exact ⟨SatKeys_mono hWle
        (processRoster_sat f.info.registry f.match_id f.info.players
          (db.players, db.match_players)),
      processInningsList_sat (fun _ => true) f.info.registry f.match_id
        (f.info.teams.head?) (f.info.teams.get? 1) 1 f.innings { players := (processRoster f.info.registry f.match_id f.info.players (db.players, db.match_players)).1, mp := (processRoster f.info.registry f.match_id f.info.players (db.players, db.match_players)).2, rows := ([] : List DeliveryRow), total_deliveries := 0, delivery_errors := 0, attempt := 0 }⟩
  · rw [show (ingestOnce strp f db).match_players = (processInningsList (fun _ => true) f.info.registry f.match_id (f.info.teams.head?) (f.info.teams.get? 1) 1 f.innings { players := (processRoster f.info.registry f.match_id f.info.players (db.players, db.match_players)).1, mp := (processRoster f.info.registry f.match_id f.info.players (db.players, db.match_players)).2, rows := ([] : List DeliveryRow), total_deliveries := 0, delivery_errors := 0, attempt := 0 }).2.mp from rfl,
      hMp, hP]
    exact congrArg
      (applyIgnores (ignoresOfInningsListD (resolveName (processInningsList (fun _ => true) f.info.registry f.match_id (f.info.teams.head?) (f.info.teams.get? 1) 1 f.innings { players := (processRoster f.info.registry f.match_id f.info.players (db.players, db.match_players)).1, mp := (processRoster f.info.registry f.match_id f.info.players (db.players, db.match_players)).2, rows := ([] : List DeliveryRow), total_deliveries := 0, delivery_errors := 0, attempt := 0 }).2.players)
        f.match_id (f.info.teams.head?) (f.info.teams.get? 1) 1 f.innings))
      hRmp
  · rw [show (ingestOnce strp f db).innings_tbl
        = (persistInnings (fun _ => true) f.match_id (bpoOf f) 0 (processInningsList (fun _ => true) f.info.registry f.match_id (f.info.teams.head?) (f.info.teams.get? 1) 1 f.innings { players := (processRoster f.info.registry f.match_id f.info.players (db.players, db.match_players)).1, mp := (processRoster f.info.registry f.match_id f.info.players (db.players, db.match_players)).2, rows := ([] : List DeliveryRow), total_deliveries := 0, delivery_errors := 0, attempt := 0 }).1
            db.innings_tbl).2 from rfl,
      persistInnings_allT_tbl, hAggs]
  · rw [show (ingestOnce strp f db).deliveries
        = db.deliveries ++ (processInningsList (fun _ => true) f.info.registry f.match_id (f.info.teams.head?) (f.info.teams.get? 1) 1 f.innings { players := (processRoster f.info.registry f.match_id f.info.players (db.players, db.match_players)).1, mp := (processRoster f.info.registry f.match_id f.info.players (db.players, db.match_players)).2, rows := ([] : List DeliveryRow), total_deliveries := 0, delivery_errors := 0, attempt := 0 }).2.rows from rfl, hRows, hP]
    rfl

/-- On a database already saturated for the file's names, re-ingestion
changes no player id. -/
theorem ingestOnce_pid_preserved (strp : String → String → Option Nat)
    (f : MatchFile) (db : DB)
    (hs : SatKeys db.players (namesOfFile f)) :
    ∀ k, pidAt (ingestOnce strp f db).players k = pidAt db.players k := by
  rw [show namesOfFile f
      = namesOfRoster f.info.players ++ namesOfInningsList f.innings
    from rfl, SatKeys_append] at hs
  have e1 := processRoster_pid_preserved f.info.registry f.match_id
    f.info.players db.players db.match_players hs.1
  have hs2 : SatKeys (processRoster f.info.registry f.match_id f.info.players (db.players, db.match_players)).1 (namesOfInningsList f.innings) :=
    SatKeys_of_pidAt_eq e1 hs.2
  have e2 := processInningsList_pid_preserved (fun _ => true) f.info.registry
    f.match_id (f.info.teams.head?) (f.info.teams.get? 1) 1 f.innings
    { players := (processRoster f.info.registry f.match_id f.info.players (db.players, db.match_players)).1, mp := (processRoster f.info.registry f.match_id f.info.players (db.players, db.match_players)).2, rows := ([] : List DeliveryRow), total_deliveries := 0, delivery_errors := 0, attempt := 0 } hs2
  intro k
  rw [show (ingestOnce strp f db).players = (processInningsList (fun _ => true) f.info.registry f.match_id (f.info.teams.head?) (f.info.teams.get? 1) 1 f.innings { players := (processRoster f.info.registry f.match_id f.info.players (db.players, db.match_players)).1, mp := (processRoster f.info.registry f.match_id f.info.players (db.players, db.match_players)).2, rows := ([] : List DeliveryRow), total_deliveries := 0, delivery_errors := 0, attempt := 0 }).2.players from rfl,
    e2 k]
  exact e1 k

theorem rowsOfDeliveriesD_mem (ρ : Option String → Option Nat) (mid : String)
    (iidx : Nat) (over_num : Int) :
    ∀ (ds : List DeliveryData) (ball_idx seq : Nat) (r : DeliveryRow),
      r ∈ rowsOfDeliveriesD ρ mid iidx over_num ball_idx seq ds →
      r.match_id = mid ∧ r.innings_number = iidx
  | [], _, _, r, h => by simp [rowsOfDeliveriesD] at h
  | d :: ds, ball_idx, seq, r, h => by
    simp only [rowsOfDeliveriesD, List.mem_cons] at h
    rcases h with h | h
    · subst h
      exact ⟨rfl, rfl⟩
    · exact rowsOfDeliveriesD_mem ρ mid iidx over_num ds (ball_idx + 1)
        (seq + 1) r h

theorem rowsOfOversD_mem (ρ : Option String → Option Nat) (mid : String)
    (iidx : Nat) :
    ∀ (ovs : List OverData) (seq : Nat) (r : DeliveryRow),
      r ∈ rowsOfOversD ρ mid iidx seq ovs →
      r.match_id = mid ∧ r.innings_number = iidx
  | [], _, r, h => by simp [rowsOfOversD] at h
  | ov :: ovs, seq, r, h => by
    simp only [rowsOfOversD, List.mem_append] at h
    rcases h with h | h
    · exact rowsOfDeliveriesD_mem ρ mid iidx ov.over ov.deliveries 1 seq r h
    · exact rowsOfOversD_mem ρ mid iidx ovs _ r h

theorem rowsOfInningsListD_mem (ρ : Option String → Option Nat)
    (mid : String) (t1 t2 : Option String) :
    ∀ (iidx : Nat) (inns : List InningsData) (r : DeliveryRow),
      r ∈ rowsOfInningsListD ρ mid t1 t2 iidx inns →
      r.match_id = mid ∧ iidx ≤ r.innings_number
  | _, [], r, h => by simp [rowsOfInningsListD] at h
  | iidx, inn :: rest, r, h => by
    simp only [rowsOfInningsListD, List.mem_append] at h
    rcases h with h | h
    · obtain ⟨h1, h2⟩ := rowsOfOversD_mem ρ mid iidx inn.overs 1 r h
      exact ⟨h1, le_of_eq h2.symm⟩
    · obtain ⟨h1, h2⟩ := rowsOfInningsListD_mem ρ mid t1 t2 (iidx + 1) rest r h
      exact ⟨h1, le_trans (Nat.le_succ iidx) h2⟩

theorem joinReplicate_concat {α : Type} :
    ∀ (n : Nat) (b : List α),
      (List.replicate n b).join ++ b = (List.replicate (n + 1) b).join
  | 0, b => by simp
  | n + 1, b => by
    simp only [List.replicate_succ, List.join_cons]
    rw [List.append_assoc, joinReplicate_concat n b]
    simp [List.replicate_succ]

/-! ## Claim C1: idempotent upserts, duplicated deliveries -/

/-- C1: re-ingesting the same match file leaves the `matches` row, the
`innings` rows, and the `match_players` links exactly as after a single
ingestion, while each re-ingestion appends a fresh copy of the match's
delivery batch: after `n + 1` ingestions the deliveries table holds
`n + 1` copies of that match's deliveries. -/
theorem C1_reingestion_idempotence :
    ∀ (strp : String → String → Option Nat) (f : MatchFile) (db : DB),
      ∃ batch : List DeliveryRow,
        (∀ r ∈ batch, r.match_id = f.match_id) ∧
        (ingestOnce strp f db).deliveries = db.deliveries ++ batch ∧
        ∀ n : Nat,
          (Nat.iterate (ingestOnce strp f) (n + 1) db).matches_tbl
            = (ingestOnce strp f db).matches_tbl ∧
          (Nat.iterate (ingestOnce strp f) (n + 1) db).innings_tbl
            = (ingestOnce strp f db).innings_tbl ∧
          (Nat.iterate (ingestOnce strp f) (n + 1) db).match_players
            = (ingestOnce strp f db).match_players ∧
          (Nat.iterate (ingestOnce strp f) (n + 1) db).deliveries
            = db.deliveries ++ (List.replicate (n + 1) batch).join := by
  intro strp f db
  obtain ⟨hle1, hsat1, hm1, hmp1, hin1, hdel1⟩ := ingest_chr strp f db
  refine ⟨rowsOfInningsListD (resolveName (ingestOnce strp f db).players)
      f.match_id (f.info.teams.head?) (f.info.teams.get? 1) 1 f.innings,
    fun r hr => (rowsOfInningsListD_mem _ _ _ _ 1 f.innings r hr).1,
    hdel1, ?_⟩
  have main : ∀ n : Nat,
      (∀ k, pidAt (Nat.iterate (ingestOnce strp f) (n + 1) db).players k
        = pidAt (ingestOnce strp f db).players k) ∧
      (Nat.iterate (ingestOnce strp f) (n + 1) db).matches_tbl
        = (ingestOnce strp f db).matches_tbl ∧
      (Nat.iterate (ingestOnce strp f) (n + 1) db).innings_tbl
        = (ingestOnce strp f db).innings_tbl ∧
      (Nat.iterate (ingestOnce strp f) (n + 1) db).match_players
        = (ingestOnce strp f db).match_players ∧
      (Nat.iterate (ingestOnce strp f) (n + 1) db).deliveries
        = db.deliveries ++
            (List.replicate (n + 1)
              (rowsOfInningsListD (resolveName (ingestOnce strp f db).players)
                f.match_id (f.info.teams.head?) (f.info.teams.get? 1) 1
                f.innings)).join := by
    intro n
    induction n with
    | zero =>
      refine ⟨fun k => rfl, rfl, rfl, rfl, ?_⟩
      simpa using hdel1
    | succ n ih =>
      obtain ⟨ihpid, ihm, ihin, ihmp, ihdel⟩ := ih
      have hstep : Nat.iterate (ingestOnce strp f) (n + 1 + 1) db
          = ingestOnce strp f (Nat.iterate (ingestOnce strp f) (n + 1) db) :=
        Function.iterate_succ_apply' (ingestOnce strp f) (n + 1) db
      have hsatn : SatKeys
          (Nat.iterate (ingestOnce strp f) (n + 1) db).players
          (namesOfFile f) :=
        SatKeys_of_pidAt_eq ihpid hsat1
      obtain ⟨hleN, hsatN, hmN, hmpN, hinN, hdelN⟩ :=
        ingest_chr strp f (Nat.iterate (ingestOnce strp f) (n + 1) db)
      have hpidN : ∀ k,
          pidAt (ingestOnce strp f
            (Nat.iterate (ingestOnce strp f) (n + 1) db)).players k
          = pidAt (ingestOnce strp f db).players k := by
        intro k
        rw [ingestOnce_pid_preserved strp f
          (Nat.iterate (ingestOnce strp f) (n + 1) db) hsatn k, ihpid k]
      have hrho : resolveName (ingestOnce strp f
            (Nat.iterate (ingestOnce strp f) (n + 1) db)).players
          = resolveName (ingestOnce strp f db).players := by
        funext n0
        exact resolveName_ext hpidN n0
      refine ⟨?_, ?_, ?_, ?_, ?_⟩
      · intro k
        rw [hstep]
        exact hpidN k
      · rw [hstep, hmN, ihm, hm1, upd_upd]
      · rw [hstep, hinN, ihin, hin1]
        by_cases hb : bpoOf f = 0
        · simp [hb]
        · simp only [hb, if_false]
          rw [applyWrites_idem]
      · rw [hstep, hmpN, ihmp, hrho, hmp1]
        rw [applyIgnores_applyWrites_idem]
      · rw [hstep, hdelN, ihdel, hrho, List.append_assoc,
          joinReplicate_concat]
  intro n
  exact ⟨(main n).2.1, (main n).2.2.1, (main n).2.2.2.1, (main n).2.2.2.2⟩

/-! ## Pure counting facts about the denoted rows (used by claim C2) -/

def runsOfOvers : List OverData → Int
  | [] => 0
  | ov :: ovs => (ov.deliveries.map runsTotalOf).sum + runsOfOvers ovs

def ballsOfOvers : List OverData → Nat
  | [] => 0
  | ov :: ovs => ov.deliveries.length + ballsOfOvers ovs

theorem rowsOfDeliveriesD_stats (ρ : Option String → Option Nat)
    (mid : String) (iidx : Nat) (over_num : Int) :
    ∀ (ds : List DeliveryData) (ball_idx seq : Nat),
      ((rowsOfDeliveriesD ρ mid iidx over_num ball_idx seq ds).map
          (fun r => r.runs_total)).sum = (ds.map runsTotalOf).sum ∧
      (rowsOfDeliveriesD ρ mid iidx over_num ball_idx seq ds).length
        = ds.length
  | [], _, _ => by simp [rowsOfDeliveriesD]
  | d :: ds, ball_idx, seq => by
    obtain ⟨h1, h2⟩ :=
      rowsOfDeliveriesD_stats ρ mid iidx over_num ds (ball_idx + 1) (seq + 1)
    simp [rowsOfDeliveriesD, h1, h2, rowOfD]

theorem rowsOfOversD_stats (ρ : Option String → Option Nat) (mid : String)
    (iidx : Nat) :
    ∀ (ovs : List OverData) (seq : Nat),
      ((rowsOfOversD ρ mid iidx seq ovs).map (fun r => r.runs_total)).sum
        = runsOfOvers ovs ∧
      (rowsOfOversD ρ mid iidx seq ovs).length = ballsOfOvers ovs
  | [], _ => by simp [rowsOfOversD, runsOfOvers, ballsOfOvers]
  | ov :: ovs, seq => by
    obtain ⟨h1, h2⟩ := rowsOfOversD_stats ρ mid iidx ovs
      (seq + ov.deliveries.length)
    obtain ⟨g1, g2⟩ := rowsOfDeliveriesD_stats ρ mid iidx ov.over
      ov.deliveries 1 seq
    simp [rowsOfOversD, runsOfOvers, ballsOfOvers, h1, h2, g1, g2]

theorem countersOfDeliveriesD_stats :
    ∀ (ds : List DeliveryData) (c : InnCounters),
      (countersOfDeliveriesD ds c).total_runs
        = c.total_runs + (ds.map runsTotalOf).sum ∧
      (countersOfDeliveriesD ds c).total_balls
        = c.total_balls + ds.length
  | [], c => by simp [countersOfDeliveriesD]
  | d :: ds, c => by
    obtain ⟨h1, h2⟩ := countersOfDeliveriesD_stats ds (stepCounters d c)
    simp only [countersOfDeliveriesD, List.map_cons, List.sum_cons,
      List.length_cons]
    rw [h1, h2]
    simp only [stepCounters]
    constructor <;> push_cast <;> ring

theorem countersOfOversD_stats :
    ∀ (ovs : List OverData) (c : InnCounters),
      (countersOfOversD ovs c).total_runs = c.total_runs + runsOfOvers ovs ∧
      (countersOfOversD ovs c).total_balls
        = c.total_balls + (ballsOfOvers ovs : Int)
  | [], c => by simp [countersOfOversD, runsOfOvers, ballsOfOvers]
  | ov :: ovs, c => by
    obtain ⟨h1, h2⟩ := countersOfOversD_stats ovs
      (countersOfDeliveriesD ov.deliveries
        { c with max_over := max c.max_over ov.over })
    obtain ⟨g1, g2⟩ := countersOfDeliveriesD_stats ov.deliveries
      { c with max_over := max c.max_over ov.over }
    simp only [countersOfOversD, runsOfOvers, ballsOfOvers, h1, h2, g1, g2]
    constructor <;> push_cast <;> ring

/-! ## Locating the persisted innings rows (used by claim C2) -/

theorem aggsD_get? (t1 t2 : Option String) :
    ∀ (inns : List InningsData) (i0 j : Nat) (inn : InningsData),
      inns.get? j = some inn →
      (aggsD t1 t2 i0 inns).get? j = some (i0 + j, aggD t1 t2 (i0 + j) inn)
  | [], _, j, _, h => by simp at h
  | inn0 :: rest, i0, 0, inn, h => by
    simp only [List.get?_cons_zero, Option.some.injEq] at h
    subst h
    simp [aggsD]
  | inn0 :: rest, i0, j + 1, inn, h => by
    simp only [List.get?_cons_succ] at h
    have ihg := aggsD_get? t1 t2 rest (i0 + 1) j inn h
    simp only [aggsD, List.get?_cons_succ]
    rw [show i0 + (j + 1) = i0 + 1 + j from by omega]
    exact ihg

theorem aggsD_idx (t1 t2 : Option String) :
    ∀ (inns : List InningsData) (i0 j : Nat) (a : Nat × InnAgg),
      (aggsD t1 t2 i0 inns).get? j = some a → a.1 = i0 + j
  | [], _, j, a, h => by simp [aggsD] at h
  | inn0 :: rest, i0, 0, a, h => by
    simp [aggsD] at h
    rw [← h]
    simp
  | inn0 :: rest, i0, j + 1, a, h => by
    simp only [aggsD, List.get?_cons_succ] at h
    have := aggsD_idx t1 t2 rest (i0 + 1) j a h
    omega

theorem lastWrite_small (mid : String) (bpo : Int) (t1 t2 : Option String) :
    ∀ (inns : List InningsData) (i0 t : Nat), t < i0 →
      lastWrite (mid, t)
        ((aggsD t1 t2 i0 inns).map
          (fun x => ((mid, x.1), inningsRowOf bpo x.2))) = none
  | [], _, _, _ => rfl
  | inn0 :: rest, i0, t, ht => by
    simp only [aggsD, List.map_cons, lastWrite]
    rw [lastWrite_small mid bpo t1 t2 rest (i0 + 1) t (by omega)]
    have : ¬((mid, i0) = (mid, t)) := by
      intro e
      have : i0 = t := congrArg Prod.snd e
      omega
    simp [this]

theorem lastWrite_aggsD (mid : String) (bpo : Int) (t1 t2 : Option String) :
    ∀ (inns : List InningsData) (i0 j : Nat) (inn : InningsData),
      inns.get? j = some inn →
      lastWrite (mid, i0 + j)
          ((aggsD t1 t2 i0 inns).map
            (fun x => ((mid, x.1), inningsRowOf bpo x.2)))
        = some (inningsRowOf bpo (aggD t1 t2 (i0 + j) inn))
  | [], _, j, _, h => by simp at h
  | inn0 :: rest, i0, 0, inn, h => by
    simp only [List.get?_cons_zero, Option.some.injEq] at h
    subst h
    simp only [aggsD, List.map_cons, lastWrite]
    rw [lastWrite_small mid bpo t1 t2 rest (i0 + 1) (i0 + 0) (by omega)]
    simp
  | inn0 :: rest, i0, j + 1, inn, h => by
    simp only [List.get?_cons_succ] at h
    have ih := lastWrite_aggsD mid bpo t1 t2 rest (i0 + 1) j inn h
    simp only [aggsD, List.map_cons, lastWrite]
    rw [show i0 + (j + 1) = i0 + 1 + j from by omega, ih]

/-! ## Selecting one innings' rows from the batch (used by claim C2) -/

theorem rowsOfInningsListD_filter (ρ : Option String → Option Nat)
    (mid : String) (t1 t2 : Option String) :
    ∀ (inns : List InningsData) (i0 j : Nat) (inn : InningsData),
      inns.get? j = some inn →
      (rowsOfInningsListD ρ mid t1 t2 i0 inns).filter
          (fun r => decide (r.match_id = mid ∧ r.innings_number = i0 + j))
        = rowsOfOversD ρ mid (i0 + j) 1 inn.overs
  | [], _, j, _, h => by simp at h
  | inn0 :: rest, i0, 0, inn, h => by
    simp only [List.get?_cons_zero, Option.some.injEq] at h
    subst h
    simp only [rowsOfInningsListD, List.filter_append]
    have h1 : (rowsOfOversD ρ mid i0 1 inn0.overs).filter
        (fun r => decide (r.match_id = mid ∧ r.innings_number = i0 + 0))
        = rowsOfOversD ρ mid i0 1 inn0.overs := by
      rw [List.filter_eq_self]
      intro r hr
      obtain ⟨e1, e2⟩ := rowsOfOversD_mem ρ mid i0 inn0.overs 1 r hr
      simp [e1, e2]
    have h2 : (rowsOfInningsListD ρ mid t1 t2 (i0 + 1) rest).filter
        (fun r => decide (r.match_id = mid ∧ r.innings_number = i0 + 0))
        = [] := by
      rw [List.filter_eq_nil]
      intro r hr
      obtain ⟨e1, e2⟩ := rowsOfInningsListD_mem ρ mid t1 t2 (i0 + 1) rest r hr
      simp only [decide_eq_true_eq, not_and]
      intro
      omega
    rw [h1, h2, List.append_nil]
    rw [show i0 + 0 = i0 from rfl]
  | inn0 :: rest, i0, j + 1, inn, h => by
    simp only [List.get?_cons_succ] at h
    simp only [rowsOfInningsListD, List.filter_append]
    have h1 : (rowsOfOversD ρ mid i0 1 inn0.overs).filter
        (fun r => decide (r.match_id = mid ∧ r.innings_number = i0 + (j + 1)))
        = [] := by
      rw [List.filter_eq_nil]
      intro r hr
      obtain ⟨e1, e2⟩ := rowsOfOversD_mem ρ mid i0 inn0.overs 1 r hr
      simp only [decide_eq_true_eq, not_and]
      intro
      omega
    have h2 := rowsOfInningsListD_filter ρ mid t1 t2 rest (i0 + 1) j inn h
    rw [h1, List.nil_append]
    rw [show i0 + (j + 1) = i0 + 1 + j from by omega]
    exact h2

/-- The aggregate loop only reports success on a nonempty list when the
balls-per-over divisor is non-zero. -/
theorem persistInnings_true_bpo (iOk : Nat → Bool) (mid : String)
    (bpo : Int) (n : Nat) (a : Nat × InnAgg) (rest : List (Nat × InnAgg))
    (tbl : String × Nat → Option InningsRow)
    (h : (persistInnings iOk mid bpo n (a :: rest) tbl).1 = true) :
    bpo ≠ 0 := by
  intro hb
  rw [hb] at h
  simp [persistInnings] at h

/-- The walk's aggregate list is the pure denotation. -/
theorem processInningsList_aggs (regF : String → Option String)
    (mid : String) (t1 t2 : Option String) (iidx : Nat)
    (inns : List InningsData) (w : WalkState) :
    (processInningsList (fun _ => true) regF mid t1 t2 iidx inns w).1
      = aggsD t1 t2 iidx inns :=
  (processInningsList_chr regF mid t1 t2 iidx inns w _ (pidsLe_refl _)).1

/-! ## Claim C2: delivery sums versus innings totals -/

/-- C2 is false on the code as stated: delivery counters update before
the insert, so with every delivery insert failing the file is still
ingested (reported successful), the stored innings row counts 2 balls,
yet zero delivery rows are persisted. -/
theorem C2_counterexample :
    (process_json_file strpSample true true true (fun _ => true)
        (fun _ => false) fSample dbEmpty).1 = true ∧
    ∃ ir : InningsRow,
      (process_json_file strpSample true true true (fun _ => true)
          (fun _ => false) fSample dbEmpty).2.innings_tbl ("m1", 1)
        = some ir ∧
      ir.total_balls = 2 ∧
      ((process_json_file strpSample true true true (fun _ => true)
          (fun _ => false) fSample dbEmpty).2.deliveries.filter
        (fun r => decide (r.match_id = "m1" ∧ r.innings_number = 1))).length
        = 0 := by
  refine ⟨rfl, ⟨_, rfl, ?_, rfl⟩⟩
  decide

/-- C2 (amended): for every match ingested exactly once with all
delivery inserts succeeding (no delivery errors), into a database
holding no prior delivery rows for that match, each of the file's
innings has a stored row whose `total_runs` equals the sum of
`runs_total` over the persisted delivery rows of that innings and whose
`total_balls` equals their count. -/
theorem C2_innings_totals :
    ∀ (strp : String → String → Option Nat) (f : MatchFile) (db : DB),
      (process_json_file strp true true true (fun _ => true) (fun _ => true)
          f db).1 = true →
      (∀ r ∈ db.deliveries, r.match_id ≠ f.match_id) →
      ∀ j : Nat, j < f.innings.length →
        ∃ ir : InningsRow,
          (ingestOnce strp f db).innings_tbl (f.match_id, 1 + j) = some ir ∧
          (((ingestOnce strp f db).deliveries.filter
              (fun r => decide (r.match_id = f.match_id ∧
                r.innings_number = 1 + j))).map
            (fun r => r.runs_total)).sum = ir.total_runs ∧
          (((ingestOnce strp f db).deliveries.filter
              (fun r => decide (r.match_id = f.match_id ∧
                r.innings_number = 1 + j))).length : Int)
            = ir.total_balls := by
  intro strp f db hflag hprior j hj
  have hinn : f.innings.get? j = some (f.innings.get ⟨j, hj⟩) :=
    List.get?_eq_get hj
  obtain ⟨hle1, hsat1, hm1, hmp1, hin1, hdel1⟩ := ingest_chr strp f db
  have hflag2 : (persistInnings (fun _ => true) f.match_id (bpoOf f) 0
      (aggsD (f.info.teams.head?) (f.info.teams.get? 1) 1 f.innings)
      db.innings_tbl).1 = true := by
    rw [← processInningsList_aggs f.info.registry f.match_id
      (f.info.teams.head?) (f.info.teams.get? 1) 1 f.innings
      { players := (processRoster f.info.registry f.match_id f.info.players
          (db.players, db.match_players)).1,
        mp := (processRoster f.info.registry f.match_id f.info.players
          (db.players, db.match_players)).2,
        rows := [], total_deliveries := 0, delivery_errors := 0,
        attempt := 0 }]
    exact hflag
  have hbpo : bpoOf f ≠ 0 := by
    rcases hinns : f.innings with _ | ⟨inn0, irest⟩
    · rw [hinns] at hj
      simp at hj
    · rw [hinns] at hflag2
      simp only [aggsD] at hflag2
      exact persistInnings_true_bpo _ _ _ _ _ _ _ hflag2
  have hrow : (ingestOnce strp f db).innings_tbl (f.match_id, 1 + j)
      = some (inningsRowOf (bpoOf f)
          (aggD (f.info.teams.head?) (f.info.teams.get? 1) (1 + j)
            (f.innings.get ⟨j, hj⟩))) := by
    rw [hin1]
    simp only [hbpo, if_false]
    rw [applyWrites_apply]
    rw [lastWrite_aggsD f.match_id (bpoOf f) (f.info.teams.head?)
      (f.info.teams.get? 1) f.innings 1 j (f.innings.get ⟨j, hj⟩) hinn]
  have hfilter : (ingestOnce strp f db).deliveries.filter
      (fun r => decide (r.match_id = f.match_id ∧ r.innings_number = 1 + j))
      = rowsOfOversD (resolveName (ingestOnce strp f db).players) f.match_id
          (1 + j) 1 (f.innings.get ⟨j, hj⟩).overs := by
    rw [hdel1, List.filter_append]
    have hdb : db.deliveries.filter
        (fun r => decide (r.match_id = f.match_id ∧
          r.innings_number = 1 + j)) = [] := by
      rw [List.filter_eq_nil]
      intro r hr
      simp only [decide_eq_true_eq, not_and]
      intro hmid
      exact absurd hmid (hprior r hr)
    rw [hdb, List.nil_append]
    exact rowsOfInningsListD_filter (resolveName (ingestOnce strp f db).players)
      f.match_id (f.info.teams.head?) (f.info.teams.get? 1) f.innings 1 j
      (f.innings.get ⟨j, hj⟩) hinn
  have hruns := (rowsOfOversD_stats
    (resolveName (ingestOnce strp f db).players) f.match_id (1 + j)
    (f.innings.get ⟨j, hj⟩).overs 1).1
  have hballs := (rowsOfOversD_stats
    (resolveName (ingestOnce strp f db).players) f.match_id (1 + j)
    (f.innings.get ⟨j, hj⟩).overs 1).2
  have hcr := (countersOfOversD_stats (f.innings.get ⟨j, hj⟩).overs
    { total_runs := 0, total_balls := 0, wickets := 0, max_over := 0 }).1
  have hcb := (countersOfOversD_stats (f.innings.get ⟨j, hj⟩).overs
    { total_runs := 0, total_balls := 0, wickets := 0, max_over := 0 }).2
  refine ⟨_, hrow, ?_, ?_⟩
  · rw [hfilter, hruns]
    rw [show (inningsRowOf (bpoOf f)
        (aggD (f.info.teams.head?) (f.info.teams.get? 1) (1 + j)
          (f.innings.get ⟨j, hj⟩))).total_runs
      = (countersOfOversD (f.innings.get ⟨j, hj⟩).overs
          { total_runs := 0, total_balls := 0, wickets := 0,
            max_over := 0 }).total_runs from rfl, hcr]
    simp
  · rw [hfilter, hballs]
    rw [show (inningsRowOf (bpoOf f)
        (aggD (f.info.teams.head?) (f.info.teams.get? 1) (1 + j)
          (f.innings.get ⟨j, hj⟩))).total_balls
      = (countersOfOversD (f.innings.get ⟨j, hj⟩).overs
          { total_runs := 0, total_balls := 0, wickets := 0,
            max_over := 0 }).total_balls from rfl, hcb]
    simp

/-- Witness for C2 (amended) on the sample file over the empty
database. -/
theorem C2_innings_totals_witness :
    ∃ ir : InningsRow,
      (ingestOnce strpSample fSample dbEmpty).innings_tbl ("m1", 1 + 0)
        = some ir ∧
      (((ingestOnce strpSample fSample dbEmpty).deliveries.filter
          (fun r => decide (r.match_id = "m1" ∧
            r.innings_number = 1 + 0))).map (fun r => r.runs_total)).sum
        = ir.total_runs ∧
      (((ingestOnce strpSample fSample dbEmpty).deliveries.filter
          (fun r => decide (r.match_id = "m1" ∧
            r.innings_number = 1 + 0))).length : Int) = ir.total_balls := by
  have h := C2_innings_totals strpSample fSample dbEmpty rfl
    (by intro r hr; simp [dbEmpty] at hr) 0 (by decide)
  exact h

/-- Witness for C1 on the sample file over the empty database. -/
theorem C1_reingestion_idempotence_witness :
    ∃ batch : List DeliveryRow,
      (∀ r ∈ batch, r.match_id = fSample.match_id) ∧
      (ingestOnce strpSample fSample dbEmpty).deliveries
        = dbEmpty.deliveries ++ batch ∧
      ∀ n : Nat,
        (Nat.iterate (ingestOnce strpSample fSample) (n + 1)
            dbEmpty).matches_tbl
          = (ingestOnce strpSample fSample dbEmpty).matches_tbl ∧
        (Nat.iterate (ingestOnce strpSample fSample) (n + 1)
            dbEmpty).innings_tbl
          = (ingestOnce strpSample fSample dbEmpty).innings_tbl ∧
        (Nat.iterate (ingestOnce strpSample fSample) (n + 1)
            dbEmpty).match_players
          = (ingestOnce strpSample fSample dbEmpty).match_players ∧
        (Nat.iterate (ingestOnce strpSample fSample) (n + 1)
            dbEmpty).deliveries
          = dbEmpty.deliveries ++ (List.replicate (n + 1) batch).join :=
  C1_reingestion_idempotence strpSample fSample dbEmpty

end IPL
